import Mathlib

/-!
# Cache sizing and backfill interface of the RethinkDB clustering layer

Shallow embedding of

* `src/clustering/administration/main/cache_size.cc`
  (`skip_spaces`, `parse_meminfo_line`, `parse_meminfo_file`,
  `get_avail_mem_size`, `get_max_total_cache_size`,
  `get_default_total_cache_size`, `validate_total_cache_size`,
  `log_total_cache_size`), and
* `src/clustering/immediate_consistency/branch/backfillee.hpp`
  (`extract_backfiller_peer_id`).

The header only declares `backfillee()`. The region model, the branch history
store, the versioned store view and the backfill session that the
specification describes are not among the sources; namespace `Backfill` holds
a model of them that follows the specification, each definition marked as
such.

Conventions of the embedding.

* `std::string` is a list of characters (`Str`); positions are natural
  numbers and `std::string::npos` is `none`. The functions embedded here
  search only for ASCII characters (`'\n'`, `':'`, blank, tab, digits), so a
  character outside ASCII behaves as the bytes that encode it do: it matches
  none of them.
* `uint64_t` values are natural numbers, reduced modulo `2^64` wherever the
  C++ arithmetic can wrap; `int64_t` values are integers, wrapped into
  `[-2^63, 2^63)` by `to_int64`.
* A function returning `bool` and writing through out-pointers returns the
  boolean together with the new contents of the pointee.
-/

namespace CacheSize

/-! ## Machine integers -/

/-- Conversion of an integer to `int64_t` (two's complement wrap-around). -/
def to_int64 (x : Int) : Int := (x + 2 ^ 63) % 2 ^ 64 - 2 ^ 63

/-- Conversion of an integer to `uint64_t` (reduction modulo `2^64`). -/
def to_uint64 (x : Int) : Nat := (x % 2 ^ 64).toNat

/-! ## Constants of `utils.hpp` and `cache_size.hpp` -/

/-- Modelled from the spec: `KILOBYTE` is declared in `utils.hpp`, which is not
among the sources; the sizing rules are stated with 1024 bytes per kilobyte. -/
def KILOBYTE : Nat := 1024

/-- Modelled from the spec: `MEGABYTE` is declared in `utils.hpp`, which is not
among the sources; the sizing rules are stated with `MEGABYTE = 2^20`. -/
def MEGABYTE : Nat := KILOBYTE * 1024

/-- Modelled from the spec: `GIGABYTE` is declared in `utils.hpp`, which is not
among the sources; the sizing rules are stated with `GIGABYTE = 2^30`. -/
def GIGABYTE : Nat := MEGABYTE * 1024

/-- Modelled from the spec: `DEFAULT_MAX_CACHE_RATIO` is declared in
`cache_size.hpp`, which is not among the sources; the sizing rules are stated
with the ratio 2 ("half the available memory"). -/
def DEFAULT_MAX_CACHE_RATIO : Int := 2

/-- The C++ `std::numeric_limits<intptr_t>::max()` on a 64-bit platform. -/
def INTPTR_MAX : Nat := 2 ^ 63 - 1

/-! ## Cache sizing -/

/-- The C++ `get_max_total_cache_size`: the largest `intptr_t`, as `uint64_t`. -/
def get_max_total_cache_size : Nat := INTPTR_MAX

/-- The C++ `get_default_total_cache_size`, as a function of the value
`avail` that its call of `get_avail_mem_size()` returns (a `uint64_t`).

```
const int64_t available_mem = get_avail_mem_size();
const int64_t signed_res =
    std::min<int64_t>(available_mem - GIGABYTE, get_max_total_cache_size()) /
    DEFAULT_MAX_CACHE_RATIO;
const uint64_t res = std::max<int64_t>(signed_res, 100 * MEGABYTE);
return res;
```

The subtraction is taken in `int64_t` with wrap-around, and `/` is the C++
division, which truncates toward zero. -/
def get_default_total_cache_size (avail : Nat) : Nat :=
  let available_mem : Int := to_int64 avail
  let signed_res : Int :=
    Int.tdiv (min (to_int64 (available_mem - GIGABYTE))
                  (to_int64 get_max_total_cache_size))
             DEFAULT_MAX_CACHE_RATIO
  let res : Nat := to_uint64 (max signed_res (to_int64 (100 * MEGABYTE)))
  res

/-- The text `strprintf` produces in `validate_total_cache_size`; both
arguments are printed with `PRIu64`, that is in decimal. -/
def validate_error_message (requested_mb bound_mb : Nat) : String :=
  "Requested cache size (" ++ toString requested_mb ++ " MB) is higher than " ++
  "the expected upper bound for this platform (" ++ toString bound_mb ++ " MB)."

/-- The C++ `validate_total_cache_size`. The second argument is the string
`*error_out` holds on entry; the result is the returned boolean and the string
`*error_out` holds on return. -/
def validate_total_cache_size (total_cache_size : Nat) (error_out : String) :
    Bool × String :=
  if total_cache_size > get_max_total_cache_size then
    (false, validate_error_message (total_cache_size / MEGABYTE)
              (get_max_total_cache_size / MEGABYTE))
  else
    (true, error_out)

/-- Severity of a log line (`logINF`, `logWRN`, `logERR`). -/
inductive log_level where
  | INF
  | WRN
  | ERR
  deriving DecidableEq, Repr

/-- The `logINF` line of `log_total_cache_size`. -/
def msg_using_cache_size (mb : Nat) : log_level × String :=
  (log_level.INF, "Using cache size of " ++ toString mb ++ " MB")

/-- The first `logWRN` line of `log_total_cache_size`. -/
def msg_larger_than_available : log_level × String :=
  (log_level.WRN, "Requested cache size is larger than available memory.")

/-- The second `logWRN` line of `log_total_cache_size`. -/
def msg_little_overhead (available_mb : Nat) : log_level × String :=
  (log_level.WRN, "Cache size does not leave much memory for server and query " ++
    "overhead (available memory: " ++ toString available_mb ++ " MB).")

/-- The third `logWRN` line of `log_total_cache_size`. -/
def msg_very_low : log_level × String :=
  (log_level.WRN, "Cache size is very low and may impact performance.")

/-! ## Strings -/

/-- A `std::string`, as the list of its characters. -/
abbrev Str := List Char

/-- Search of the first position `≥ i` holding a character that satisfies `p`,
where the first argument is the part of the string from position `i` on;
`none` is `std::string::npos`. -/
def find_loop (p : Char → Bool) : Str → Nat → Option Nat
  | [], _ => none
  | c :: cs, i => if p c then some i else find_loop p cs (i + 1)

/-- The C++ `s.find(c, pos)`. -/
def find (s : Str) (c : Char) (pos : Nat) : Option Nat :=
  find_loop (fun x => x == c) (s.drop pos) pos

/-- The C++ `s.find_first_of(chars, pos)`. -/
def find_first_of (s : Str) (chars : List Char) (pos : Nat) : Option Nat :=
  find_loop (fun x => chars.contains x) (s.drop pos) pos

/-- The C++ `s.substr(pos, len)`, for `pos ≤ s.size()`. -/
def substr (s : Str) (pos len : Nat) : Str := (s.drop pos).take len

/-- The loop of `skip_spaces`, where the first argument is the part of the
string from position `i` on:
`while (i < s.size() && (s[i] == ' ' || s[i] == '\t')) ++i;`. -/
def skip_spaces_loop : Str → Nat → Nat
  | [], i => i
  | c :: cs, i => if c == ' ' || c == '\t' then skip_spaces_loop cs (i + 1) else i

/-- The C++ `skip_spaces`. -/
def skip_spaces (s : Str) (i : Nat) : Nat := skip_spaces_loop (s.drop i) i

/-- The digit loop of `parse_meminfo_line`, where the first argument is the
part of the line from position `i` on:
`while (i < line.size() && '0' <= line[i] && '9' >= line[i]) ++i;`. -/
def digits_loop : Str → Nat → Nat
  | [], i => i
  | c :: cs, i => if '0' ≤ c ∧ '9' ≥ c then digits_loop cs (i + 1) else i

/-! ## `/proc/meminfo` -/

/-- Modelled from the spec: `strtou64_strict` (declared in `utils.hpp`, with
its body in `utils.cc`) is not among the sources. This is its behaviour on the
only arguments `parse_meminfo_line` passes to it, non-empty strings of decimal
digits: the decimal value when it fits in 64 bits, failure otherwise. The
results on `parse_meminfo_file` are stated for an arbitrary conversion
function; this one serves to evaluate concrete inputs. -/
def strtou64_strict (s : Str) : Option Nat :=
  if s.isEmpty || !s.all Char.isDigit then none
  else
    let v := s.foldl (fun acc c => 10 * acc + (c.toNat - '0'.toNat)) 0
    if v < 2 ^ 64 then some v else none

/-- The part of `parse_meminfo_line` that works on the extracted `line`
(from `const size_t colon = line.find(':')` to the end of the function).
`strtou64` is the conversion function the code calls as `strtou64_strict`.
The result is `none` when the C++ returns `false`, and otherwise the triple
`(*name_out, *value_out, *unit_out)`. (What the C++ leaves in the out-parameters
when it returns `false` is not represented: its only caller does not read them
in that case.) -/
def parse_line (strtou64 : Str → Option Nat) (line : Str) : Option (Str × Nat × Str) :=
  match find line ':' 0 with
  | none => none
  | some colon =>
    let i := skip_spaces line (colon + 1)
    let number_begin := i
    let number_end := digits_loop (line.drop i) i
    if number_begin = number_end then none
    else
      let unit_begin := skip_spaces line number_end
      let unit_end := (find_first_of line [' ', '\t'] unit_begin).getD line.length
      let e := skip_spaces line unit_end
      if e ≠ line.length then none
      else
        let name := substr line 0 colon
        match strtou64 (substr line number_begin (number_end - number_begin)) with
        | none => none
        | some value => some (name, value, substr line unit_begin (unit_end - unit_begin))

/-- The C++ `parse_meminfo_line`: the line starting at `offset` is cut out of
`contents` and handed to `parse_line`. The first component of the result is
the new value of `*offset_ref` (written whether or not the line parses). -/
def parse_meminfo_line (strtou64 : Str → Option Nat) (contents : Str) (offset : Nat) :
    Nat × Option (Str × Nat × Str) :=
  let line_begin := offset
  match find contents '\n' line_begin with
  | none =>
    let line_end := contents.length
    (line_end, parse_line strtou64 (substr contents line_begin (line_end - line_begin)))
  | some line_end =>
    (line_end + 1, parse_line strtou64 (substr contents line_begin (line_end - line_begin)))

/-- The local variables of `parse_meminfo_file` that live across iterations. -/
structure meminfo_vars where
  memfree : Nat
  cached : Nat
  seen_memfree : Bool
  seen_cached : Bool
  deriving DecidableEq, Repr

/-- The values of the local variables of `parse_meminfo_file` before the loop. -/
def meminfo_init : meminfo_vars :=
  { memfree := 0, cached := 0, seen_memfree := false, seen_cached := false }

/-- The two branches on `name` in the loop body of `parse_meminfo_file`;
`none` is `return false`. The products `value * KILOBYTE` are `uint64_t`. -/
def record_field (name : Str) (value : Nat) (unit : Str) (st : meminfo_vars) :
    Option meminfo_vars :=
  if name = "MemFree".toList then
    if st.seen_memfree then none
    else if unit ≠ "kB".toList then none
    else some { st with seen_memfree := true, memfree := value * KILOBYTE % 2 ^ 64 }
  else if name = "Cached".toList then
    if st.seen_cached then none
    else if unit ≠ "kB".toList then none
    else some { st with seen_cached := true, cached := value * KILOBYTE % 2 ^ 64 }
  else some st

/-- How the `while` loop of `parse_meminfo_file` is left. -/
inductive loop_exit where
  /-- One of the `return false` statements in the loop body. -/
  | returned_false
  /-- The loop ended, by `break` or because a line did not parse. -/
  | done (st : meminfo_vars)
  /-- The iteration budget of the embedding ran out (shown not to happen). -/
  | out_of_fuel
  deriving DecidableEq, Repr

/-- The `while` loop of `parse_meminfo_file`, with an iteration budget. -/
def parse_meminfo_file_loop (strtou64 : Str → Option Nat) (contents : Str) :
    Nat → Nat → meminfo_vars → loop_exit
  | 0, _, _ => loop_exit.out_of_fuel
  | fuel + 1, offset, st =>
    match parse_meminfo_line strtou64 contents offset with
    | (_, none) => loop_exit.done st
    | (offset1, some (name, value, unit)) =>
      match record_field name value unit st with
      | none => loop_exit.returned_false
      | some st1 =>
        if st1.seen_memfree && st1.seen_cached then loop_exit.done st1
        else parse_meminfo_file_loop strtou64 contents fuel offset1 st1

/-- The C++ `parse_meminfo_file`. The last argument is the value `*mem_avail_out`
holds on entry; the result is the returned boolean together with the value
`*mem_avail_out` holds on return, or `none` if the iteration budget
`contents.size() + 1` of the embedding were to run out. The sum
`memfree + cached` is `uint64_t`. -/
def parse_meminfo_file (strtou64 : Str → Option Nat) (contents : Str) (mem_avail_out : Nat) :
    Option (Bool × Nat) :=
  match parse_meminfo_file_loop strtou64 contents (contents.length + 1) 0 meminfo_init with
  | loop_exit.out_of_fuel => none
  | loop_exit.returned_false => some (false, mem_avail_out)
  | loop_exit.done st =>
    if st.seen_memfree && st.seen_cached then
      some (true, (st.memfree + st.cached) % 2 ^ 64)
    else
      some (false, mem_avail_out)

/-- The C++ `get_proc_meminfo_available_memory_size`, as a function of the text
`blocking_read_file` reads from `/proc/meminfo` (`none` when the read fails). -/
def get_proc_meminfo_available_memory_size (strtou64 : Str → Option Nat)
    (proc_meminfo : Option Str) (mem_avail_out : Nat) : Option (Bool × Nat) :=
  match proc_meminfo with
  | none => some (false, mem_avail_out)
  | some contents => parse_meminfo_file strtou64 contents mem_avail_out

/-- The non-Mach branch of the C++ `get_avail_mem_size`, as a function of what
the operating system supplies: `proc_meminfo` is the text of `/proc/meminfo`
(`none` when it cannot be read), `page_size` and `avphys_pages` are the values
of `sysconf(_SC_PAGESIZE)` and `sysconf(_SC_AVPHYS_PAGES)`, and `memory` is
what the uninitialised local `memory` happens to hold. The product is
`uint64_t`. The result is `none` only if the iteration budget of
`parse_meminfo_file` were to run out. -/
def get_avail_mem_size (strtou64 : Str → Option Nat) (proc_meminfo : Option Str)
    (page_size avphys_pages memory : Nat) : Option Nat :=
  match get_proc_meminfo_available_memory_size strtou64 proc_meminfo memory with
  | none => none
  | some (true, memory1) => some memory1
  | some (false, _) => some (avphys_pages * page_size % 2 ^ 64)

/-- The `logERR` line of the non-Mach branch of `get_avail_mem_size`. -/
def msg_could_not_parse : log_level × String :=
  (log_level.ERR, "Could not parse /proc/meminfo, so we will treat cached file memory " ++
    "as if it were unavailable.")

/-- The lines that the non-Mach branch of the C++ `get_avail_mem_size` logs, as
a function of the same inputs: nothing when `/proc/meminfo` is read and parsed,
the `logERR` line on the fallback path. The result is `none` only if the
iteration budget of `parse_meminfo_file` were to run out. -/
def get_avail_mem_size_log (strtou64 : Str → Option Nat) (proc_meminfo : Option Str)
    (memory : Nat) : Option (List (log_level × String)) :=
  match get_proc_meminfo_available_memory_size strtou64 proc_meminfo memory with
  | none => none
  | some (true, _) => some []
  | some (false, _) => some [msg_could_not_parse]

/-- The C++ `log_total_cache_size`, as a function of the requested size and of
what its call of `get_avail_mem_size()` returns (`available_memory`) and logs
(`avail_log`, see `get_avail_mem_size_log`). The result is the list of log
lines in the order they are emitted: the `logINF` line, the lines of the call,
then the warnings. The sum `total_cache_size + GIGABYTE` is computed in
`uint64_t`. -/
def log_total_cache_size (total_cache_size available_memory : Nat)
    (avail_log : List (log_level × String)) : List (log_level × String) :=
  [msg_using_cache_size (total_cache_size / MEGABYTE)]
  ++ avail_log
  ++ (if total_cache_size > available_memory then
        [msg_larger_than_available]
      else if (total_cache_size + GIGABYTE) % 2 ^ 64 > available_memory then
        [msg_little_overhead (available_memory / MEGABYTE)]
      else [])
  ++ (if total_cache_size ≤ 100 * MEGABYTE then [msg_very_low] else [])

/-- The text of a `/proc/meminfo` with 8 GiB of free and cached memory
(used to evaluate the sizing on a concrete input). -/
def example_meminfo_8gib : Str :=
  "MemFree: 4194304 kB\nCached: 4194304 kB\n".toList

/-- The text of a small `/proc/meminfo` (used to evaluate the parser on a
concrete input). -/
def example_meminfo : Str :=
  "MemTotal: 8 kB\nMemFree: 100 kB\nBuffers: 5 kB\nCached: 200 kB\n".toList

/-! ## Lines of a text -/

/-- The lines of a text: the pieces between successive `'\n'` characters
(a text ending in `'\n'` has an empty last line). -/
def split_lines : Str → List Str
  | [] => [[]]
  | c :: cs =>
    if c = '\n' then [] :: split_lines cs
    else
      match split_lines cs with
      | [] => [[c]]
      | l :: ls => (c :: l) :: ls

/-- The name of a line as `parse_meminfo_line` computes it: the text before
the first `':'`, if the line has one. -/
def line_name (line : Str) : Option Str :=
  (find line ':' 0).map (fun colon => substr line 0 colon)

/-- Whether a line is named `name`. -/
def is_named (name : String) (line : Str) : Bool :=
  decide (line_name line = some name.toList)

/-- The number on a line, when `parse_meminfo_line` accepts the line. -/
def line_value (strtou64 : Str → Option Nat) (line : Str) : Option Nat :=
  (parse_line strtou64 line).map (fun r => r.2.1)

/-- The unit on a line, when `parse_meminfo_line` accepts the line. -/
def line_unit (strtou64 : Str → Option Nat) (line : Str) : Option Str :=
  (parse_line strtou64 line).map (fun r => r.2.2)

/-- The `while` loop of `parse_meminfo_file` replayed on a list of lines
instead of on offsets into the text (shown equal to `parse_meminfo_file_loop`
on the lines of the text). -/
def scan_lines (strtou64 : Str → Option Nat) : List Str → meminfo_vars → loop_exit
  | [], st => loop_exit.done st
  | l :: ls, st =>
    match parse_line strtou64 l with
    | none => loop_exit.done st
    | some (name, value, unit) =>
      match record_field name value unit st with
      | none => loop_exit.returned_false
      | some st1 =>
        if st1.seen_memfree && st1.seen_cached then loop_exit.done st1
        else scan_lines strtou64 ls st1

/-- The lines `pre` are all accepted, hold (together with what `st` has seen)
exactly one `MemFree` and one `Cached` line, both in kB, and end in one of
the two. -/
def good_head (s : Str → Option Nat) (st : meminfo_vars) (pre : List Str) : Prop :=
  (∀ l ∈ pre, (parse_line s l).isSome = true) ∧
  pre.countP (is_named "MemFree") + (if st.seen_memfree then 1 else 0) = 1 ∧
  pre.countP (is_named "Cached") + (if st.seen_cached then 1 else 0) = 1 ∧
  (∀ l ∈ pre, is_named "MemFree" l = true ∨ is_named "Cached" l = true →
      line_unit s l = some "kB".toList) ∧
  (∃ l, pre.getLast? = some l ∧ (is_named "MemFree" l = true ∨ is_named "Cached" l = true))

end CacheSize

namespace Backfill

/-! ## `backfillee.hpp` -/

/-- The C++ `backfiller_business_card_t<protocol_t>` (declared in `metadata.hpp`,
which is not among the sources), reduced to the one member that
`extract_backfiller_peer_id` reads; `addr` is the type of mailbox addresses. -/
structure backfiller_business_card_t (addr : Type) where
  backfill_mailbox : addr

/-- The C++ `extract_backfiller_peer_id`. The peer and mailbox-address types
come from headers that are not among the sources, so what the function uses of
them is taken as parameters: `nil_peer` is the default-constructed `peer_id_t`,
`is_nil` and `get_peer` are the member functions of the mailbox address.
`boost::optional` is `Option`.

```
peer_id_t peer;
if (backfiller_metadata) {
    auto option2 = backfiller_metadata.get();
    if (option2 && !option2->backfill_mailbox.is_nil()) {
        peer = option2->backfill_mailbox.get_peer();
    }
}
return peer;
``` -/
def extract_backfiller_peer_id {peer_id_t addr : Type} (nil_peer : peer_id_t)
    (is_nil : addr → Bool) (get_peer : addr → peer_id_t)
    (backfiller_metadata : Option (Option (backfiller_business_card_t addr))) : peer_id_t :=
  let peer := nil_peer
  match backfiller_metadata with
  | none => peer
  | some option2 =>
    match option2 with
    | none => peer
    | some card =>
      if !is_nil card.backfill_mailbox then get_peer card.backfill_mailbox
      else peer

/-! ## The backfill layer as the specification describes it

`backfillee.hpp` only declares `backfillee()`; the region model, the branch
history store, the versioned store view and the session are not among the
sources. The definitions of this section follow the specification. -/

/-- Modelled from the spec: keys of the keyspace (§3); the source has no key
type, natural numbers stand for them. -/
abbrev Key := Nat

/-- Modelled from the spec: a region is "a subset of the total keyspace" (§3);
the source has no region type, finite sets of keys stand for it. -/
abbrev Region := Finset Key

/-- Modelled from the spec: `intersect(a,b)` of the region model (§4.1), absent
from the sources. -/
def intersect (a b : Region) : Region := a ∩ b

/-- Modelled from the spec: `subtract(a,b)` of the region model (§4.1), absent
from the sources. -/
def subtract (a b : Region) : Region := a \ b

/-- Modelled from the spec: `union_regions(a,b)` of the region model (§4.1),
absent from the sources. -/
def union_regions (a b : Region) : Region := a ∪ b

/-- Modelled from the spec: `is_empty(r)` of the region model (§4.1), absent
from the sources. -/
def is_empty (r : Region) : Bool := decide (r = ∅)

/-- Modelled from the spec: `is_subset(a,b)` of the region model (§4.1), absent
from the sources. -/
def is_subset (a b : Region) : Bool := decide (a ⊆ b)

/-- Modelled from the spec: a timestamp is "a totally ordered logical clock
value" (§3); absent from the sources. -/
abbrev Timestamp := Nat

/-- Modelled from the spec: the unique id of a branch (§3); absent from the
sources. -/
abbrev BranchId := Nat

/-- Modelled from the spec: a branch "records {region, origin (parent branch id
+ timestamp at fork, or none for the root), timestamp interval it covers}"
(§3); absent from the sources. -/
structure Branch where
  id : BranchId
  region : Region
  origin : Option (BranchId × Timestamp)
  first_timestamp : Timestamp
  latest_timestamp : Timestamp

/-- Modelled from the spec: the branch history store, "an arena of branch
records indexed by id" (§9); absent from the sources. -/
abbrev BranchHistory := List Branch

/-- Modelled from the spec: metainfo, "a mapping from sub-regions to (branch id,
timestamp) pairs" (§3); absent from the sources. -/
abbrev Metainfo := List (Region × BranchId × Timestamp)

/-- Modelled from the spec: the metainfo invariant "sub-regions in a metainfo
map are pairwise disjoint" (§3); absent from the sources. -/
def metainfo_disjoint (m : Metainfo) : Prop :=
  m.Pairwise (fun a b => Disjoint a.1 b.1)

/-- Modelled from the spec: "metainfo M covering R" (§8): every key of `R` lies
in a sub-region of `M`; absent from the sources. -/
def metainfo_covers (m : Metainfo) (r : Region) : Prop :=
  r ⊆ (m.map (fun e => e.1)).foldr union_regions ∅

/-- Modelled from the spec: the errors of the branch history store and of the
session (§4.2, §4.4, §7); absent from the sources. -/
inductive BackfillError where
  | Interrupted
  | PeerLost
  | HistoryConflict
  | HistoryCorrupt
  | ProtocolViolation
  deriving DecidableEq, Repr

/-- Modelled from the spec: the transfer mode of a directive, "one of
{incremental-since(timestamp), full-snapshot}" (§4.2); absent from the
sources. -/
inductive transfer_mode where
  | incremental_since (t : Timestamp)
  | full_snapshot
  deriving DecidableEq, Repr

/-- Modelled from the spec: a "(sub-region, transfer-mode)" directive of
`compute_delta` (§4.2); absent from the sources. -/
structure directive where
  sub_region : Region
  mode : transfer_mode
  deriving DecidableEq

/-- Modelled from the spec: a branch id is recorded in the history store;
absent from the sources. -/
def branch_known (h : BranchHistory) (b : BranchId) : Prop :=
  ∃ (j : Nat) (br : Branch), h[j]? = some br ∧ br.id = b

/-- Modelled from the spec: the history store is an append-only DAG (§3), so
the parent named by a branch's origin was recorded before the branch (no
missing parents, no cycles); absent from the sources. -/
def history_closed (h : BranchHistory) : Prop :=
  ∀ (i : Nat) (br : Branch) (p : BranchId) (t : Timestamp),
    h[i]? = some br → br.origin = some (p, t) →
      ∃ (j : Nat) (pb : Branch), j < i ∧ h[j]? = some pb ∧ pb.id = p

/-- Modelled from the spec: lookup of a branch record by id in the arena (§9);
absent from the sources. -/
def find_branch (h : BranchHistory) (id : BranchId) : Option Branch :=
  h.find? (fun b => b.id == id)

/-- Modelled from the spec: the ancestry walk of §4.2, "iterative index lookups
bounded by DAG depth" (§9): the chain of (branch id, timestamp) points from a
version back to its root. A missing parent, and a walk longer than the budget
(a cycle), are `HistoryCorrupt`. Absent from the sources. -/
def ancestry (h : BranchHistory) : Nat → BranchId → Timestamp →
    Except BackfillError (List (BranchId × Timestamp))
  | 0, _, _ => Except.error BackfillError.HistoryCorrupt
  | budget + 1, b, t =>
    match find_branch h b with
    | none => Except.error BackfillError.HistoryCorrupt
    | some br =>
      match br.origin with
      | none => Except.ok [(b, t)]
      | some (parent, fork) =>
        match ancestry h budget parent fork with
        | Except.error e => Except.error e
        | Except.ok chain => Except.ok ((b, t) :: chain)

/-- Modelled from the spec: the "lowest common ancestor (branch id, timestamp)"
of two ancestry chains (§4.2): the first point of the local chain whose branch
also lies on the remote chain, at the earlier of the two timestamps. Absent
from the sources. -/
def lowest_common_ancestor (local_chain remote_chain : List (BranchId × Timestamp)) :
    Option (BranchId × Timestamp) :=
  match local_chain with
  | [] => none
  | (b, t) :: rest =>
    match remote_chain.find? (fun p => p.1 == b) with
    | some (_, t') => some (b, min t t')
    | none => lowest_common_ancestor rest remote_chain

/-- Modelled from the spec: the transfer mode for one sub-region (§4.2): both
ancestries are walked to their lowest common ancestor; "if local and remote are
on the same branch" the mode is incremental since the local timestamp, and
"if they diverged" it is a full snapshot. Absent from the sources. -/
def mode_for (h : BranchHistory) (local_branch : BranchId) (local_timestamp : Timestamp)
    (remote_branch_id : BranchId) (remote_timestamp : Timestamp) :
    Except BackfillError transfer_mode :=
  match ancestry h (h.length + 1) local_branch local_timestamp with
  | Except.error e => Except.error e
  | Except.ok local_chain =>
    match ancestry h (h.length + 1) remote_branch_id remote_timestamp with
    | Except.error e => Except.error e
    | Except.ok remote_chain =>
      match lowest_common_ancestor local_chain remote_chain with
      | some (b, _) =>
        if b = local_branch ∧ b = remote_branch_id then
          Except.ok (transfer_mode.incremental_since local_timestamp)
        else Except.ok transfer_mode.full_snapshot
      | none => Except.ok transfer_mode.full_snapshot

/-- Modelled from the spec: `compute_delta(local_metainfo, remote_branch_id,
remote_timestamp, region)` of the branch history store `h` (§4.2): "for each
sub-region of `region` in `local_metainfo`" one directive, in the order of the
metainfo; a failed ancestry walk fails the whole call. Absent from the
sources. -/
def compute_delta (h : BranchHistory) (local_metainfo : Metainfo)
    (remote_branch_id : BranchId) (remote_timestamp : Timestamp) (region : Region) :
    Except BackfillError (List directive) :=
  match local_metainfo with
  | [] => Except.ok []
  | (sub, b, t) :: rest =>
    if is_empty (intersect sub region) then
      compute_delta h rest remote_branch_id remote_timestamp region
    else
      match mode_for h b t remote_branch_id remote_timestamp with
      | Except.error e => Except.error e
      | Except.ok mode =>
        match compute_delta h rest remote_branch_id remote_timestamp region with
        | Except.error e => Except.error e
        | Except.ok ds => Except.ok ({ sub_region := intersect sub region, mode := mode } :: ds)

/-- Modelled from the spec: the payload stored under a key; the versioned store
view is not among the sources and the spec leaves values opaque. -/
abbrev Value := Nat

/-- Modelled from the spec: the versioned store view, "one replica's on-disk
data plus its per-region metadata (current branch + timestamp)" (§2, §4.3);
absent from the sources. -/
structure Store where
  data : Key → Option Value
  metainfo : Metainfo

/-- Modelled from the spec: the "(branch id, timestamp)" that a metainfo map
records for the sub-region holding key `k` (§3); absent from the sources. -/
def metainfo_at (m : Metainfo) (k : Key) : Option (BranchId × Timestamp) :=
  (m.find? (fun e => decide (k ∈ e.1))).map (fun e => e.2)

/-- Modelled from the spec: `read_metainfo(region)` of the versioned store view
(§4.3): the stored mapping restricted to `region`; absent from the sources. -/
def read_metainfo (st : Store) (region : Region) : Metainfo :=
  (st.metainfo.map (fun e => (intersect e.1 region, e.2))).filter (fun e => !is_empty e.1)

/-- Modelled from the spec: a backfill chunk, "{covered sub-region, serialized
key/value deltas or snapshot data for that sub-region, resulting (branch id,
timestamp) for that sub-region}" (§3); `data` gives the contents of each key of
the sub-region after the chunk. Absent from the sources. -/
structure Chunk where
  sub_region : Region
  data : Key → Option Value
  branch_id : BranchId
  timestamp : Timestamp

/-- Modelled from the spec: `apply_chunk(chunk)` of the versioned store view
(§4.3), which "atomically writes the chunk's data and updates metainfo for
`chunk.sub_region` to `(chunk.branch_id, chunk.timestamp)`"; absent from the
sources. -/
def apply_chunk (c : Chunk) (st : Store) : Store :=
  { data := fun k => if k ∈ c.sub_region then c.data k else st.data k,
    metainfo :=
      (c.sub_region, c.branch_id, c.timestamp) ::
        (st.metainfo.map (fun e => (subtract e.1 c.sub_region, e.2))).filter
          (fun e => !is_empty e.1) }

/-- Modelled from the spec: the backfiller peer of §4.5, as far as a session
depends on it: its own branch history and version, and the data and resulting
version it sends for a directive. Absent from the sources. -/
structure Backfiller where
  history : BranchHistory
  branch_id : BranchId
  timestamp : Timestamp
  payload : directive → Key → Option Value
  result_version : directive → BranchId × Timestamp

/-- Modelled from the spec: the chunk a backfiller sends for a directive it
advertised (§4.5: it replies "with the ordered list of sub-regions and transfer
modes it will send, then stream[s] chunks"); absent from the sources. -/
def chunk_for (peer : Backfiller) (d : directive) : Chunk :=
  { sub_region := d.sub_region, data := peer.payload d,
    branch_id := (peer.result_version d).1, timestamp := (peer.result_version d).2 }

/-- Modelled from the spec: what happens during one session, as far as the
store depends on it. `received` lists, in the order of application, the
positions (in the advertised list) of the sub-regions whose chunk arrived
before the session ended; `ending` is `none` when the completion marker
arrived, and otherwise the reason of the abort (§4.4: interruption, peer loss,
or a protocol or history error). Absent from the sources. -/
structure Schedule where
  received : List Nat
  ending : Option BackfillError

/-- Modelled from the spec: the `Streaming` state of the session (§4.4): "each
received chunk is applied via `apply_chunk`"; a chunk for a sub-region that was
not advertised is a `ProtocolViolation` and ends the stream. The result is the
error, if any, the positions applied, and the store. Absent from the
sources. -/
def stream_chunks (chunks : List Chunk) :
    List Nat → Store → Option BackfillError × List Nat × Store
  | [], st => (none, [], st)
  | i :: rest, st =>
    match chunks[i]? with
    | none => (some BackfillError.ProtocolViolation, [], st)
    | some c =>
      let r := stream_chunks chunks rest (apply_chunk c st)
      (r.1, i :: r.2.1, r.2.2)

/-- Modelled from the spec: the backfill session `run_backfill` (§4.4, §6),
which the header declares as `backfillee()`. `Negotiating`: the local metainfo
for the region is read and sent, and the backfiller computes the delta from it
against its own history (§4.5). `Streaming`: the chunks of the advertised
sub-regions are applied as they arrive. `Draining`: the session completes when
the completion marker arrives after all advertised sub-regions. On abort
nothing is rolled back. The result is the outcome, the positions of the
sub-regions applied, and the store afterwards. Windowing and acknowledgements
do not affect the store and are not represented. Absent from the sources. -/
def run_backfill (store : Store) (region : Region) (peer : Backfiller) (sched : Schedule) :
    Except BackfillError Unit × List Nat × Store :=
  match compute_delta peer.history (read_metainfo store region) peer.branch_id peer.timestamp
      region with
  | Except.error e => (Except.error e, [], store)
  | Except.ok advertised =>
    match stream_chunks (advertised.map (chunk_for peer)) sched.received store with
    | (some e, applied, store1) => (Except.error e, applied, store1)
    | (none, applied, store1) =>
      match sched.ending with
      | some e => (Except.error e, applied, store1)
      | none =>
        if (List.range advertised.length).all (fun i => applied.contains i) then
          (Except.ok (), applied, store1)
        else (Except.error BackfillError.ProtocolViolation, applied, store1)

/-- A history of two branches: the root branch 1, and branch 2 forked from it
at timestamp 3 (used to evaluate `compute_delta` on a concrete input). -/
def example_history : BranchHistory :=
  [⟨1, {0, 1, 2, 3, 4, 5, 6, 7, 8, 9}, none, 0, 12⟩, ⟨2, {3, 4, 5}, some (1, 3), 3, 7⟩]

/-- A metainfo of four sub-regions, the second on the forked branch 2 (used to
evaluate `compute_delta` on a concrete input). -/
def example_metainfo : Metainfo :=
  [({0, 1, 2}, 1, 5), ({3, 4, 5}, 2, 7), ({6, 7}, 1, 5), ({8, 9}, 1, 5)]

/-- A region that cuts the first three sub-regions of `example_metainfo` and
misses the fourth (used to evaluate `compute_delta` on a concrete input). -/
def example_region : Region := {1, 2, 3, 6}

/-- A store holding three sub-regions at branch 1, timestamp 5, and no data
(used to evaluate a session on a concrete input). -/
def example_store : Store :=
  { data := fun _ => none,
    metainfo := [({0, 1}, 1, 5), ({2, 3}, 1, 5), ({4}, 1, 5)] }

/-- A backfiller at branch 1, timestamp 12, that sends the value 7 for every
key (used to evaluate a session on a concrete input). -/
def example_backfiller : Backfiller :=
  { history := [⟨1, {0, 1, 2, 3, 4}, none, 0, 12⟩],
    branch_id := 1,
    timestamp := 12,
    payload := fun _ _ => some 7,
    result_version := fun _ => (1, 12) }

/-- A session interrupted after the second advertised sub-region was applied
(used to evaluate a session on a concrete input). -/
def example_schedule : Schedule :=
  { received := [1], ending := some BackfillError.Interrupted }

end Backfill

/-! # Theorems -/

namespace CacheSize

/-! ## Default cache size -/

theorem tdiv_two (x : Int) :
    Int.tdiv x 2 = if 0 ≤ x then x / 2 else -((-x) / 2) := by
  split
  · next h => exact Int.tdiv_eq_ediv h (by decide)
  · next h =>
    have hx : x = -(-x) := by omega
    rw [hx, Int.neg_tdiv, Int.tdiv_eq_ediv (by omega) (by decide)]
    simp

theorem default_unfold (a : Nat) :
    get_default_total_cache_size a =
      to_uint64 (max (Int.tdiv (min (to_int64 (to_int64 a - 1073741824)) 9223372036854775807) 2)
        104857600) := by
  simp only [get_default_total_cache_size, get_max_total_cache_size, INTPTR_MAX, GIGABYTE,
    MEGABYTE, KILOBYTE, DEFAULT_MAX_CACHE_RATIO]
  norm_num [to_int64]

/-- Claim C2. The default cache size is half of (available memory minus one
gigabyte), floored at 100 megabytes: when `get_avail_mem_size` returns
`a < 2^63`, `get_default_total_cache_size` returns
`max ((a - 2^30) / 2) (100 * 2^20)`, the division truncating toward zero. -/
theorem default_is_half_minus_gigabyte (a : Nat) (ha : a < 2 ^ 63) :
    (get_default_total_cache_size a : Int)
      = max (Int.tdiv ((a : Int) - 2 ^ 30) 2) (100 * 2 ^ 20) := by
  rw [default_unfold, tdiv_two, tdiv_two]
  simp only [to_int64, to_uint64]
  norm_num at ha ⊢
  split <;> split <;> omega

/-- With 8 GiB available the default is 3758096384 bytes (3.5 GiB); with
512 MiB available it is the floor, 104857600 bytes. -/
theorem default_is_half_minus_gigabyte_witness :
    ((8 * 2 ^ 30 : Nat) < 2 ^ 63 ∧
      (get_default_total_cache_size (8 * 2 ^ 30) : Int)
        = max (Int.tdiv (((8 * 2 ^ 30 : Nat) : Int) - 2 ^ 30) 2) (100 * 2 ^ 20)) ∧
    get_default_total_cache_size (8 * 2 ^ 30) = 3758096384 ∧
    get_default_total_cache_size (512 * 2 ^ 20) = 104857600 :=
  ⟨⟨by norm_num, default_is_half_minus_gigabyte (8 * 2 ^ 30) (by norm_num)⟩,
   by decide, by decide⟩

/-- Claim C3. The default never drops below 100 megabytes: whatever value
`get_avail_mem_size` returns (0 and values from `2^63` on included, which are
negative as `int64_t`, the subtraction wrapping modulo `2^64`),
`get_default_total_cache_size` returns at least `100 * 2^20 = 104857600`,
and the result is a `uint64_t`. -/
theorem default_at_least_100_megabytes (a : Nat) :
    100 * 2 ^ 20 ≤ get_default_total_cache_size a ∧
    get_default_total_cache_size a < 2 ^ 64 := by
  rw [default_unfold, tdiv_two]
  simp only [to_int64, to_uint64]
  norm_num
  split <;> omega

/-- The call of `get_avail_mem_size()` logs nothing or its one `logERR` line. -/
theorem get_avail_mem_size_log_cases (s : Str → Option Nat) (proc_meminfo : Option Str)
    (memory : Nat) (avail_log : List (log_level × String))
    (h : get_avail_mem_size_log s proc_meminfo memory = some avail_log) :
    avail_log = [] ∨ avail_log = [msg_could_not_parse] := by
  unfold get_avail_mem_size_log at h
  split at h
  · exact Option.noConfusion h
  · left; exact (Option.some.inj h).symm
  · right; exact (Option.some.inj h).symm

/-- Claim C4. The default leaves room for server and query overhead: when the
available memory is `a < 2^63` and the default `d` is above its floor of 100
megabytes, `d + 2^30 ≤ a`, and `log_total_cache_size d`, run against the same
available memory, emits none of its three warnings: it logs its information
line and then only what its call of `get_avail_mem_size()` logs (nothing, or
the `logERR` line of the fallback path), so no line it logs is of level `WRN`. -/
theorem default_leaves_overhead (a : Nat) (s : Str → Option Nat)
    (proc_meminfo : Option Str) (memory : Nat) (avail_log : List (log_level × String))
    (ha : a < 2 ^ 63)
    (hd : get_default_total_cache_size a > 100 * 2 ^ 20)
    (hlg : get_avail_mem_size_log s proc_meminfo memory = some avail_log) :
    get_default_total_cache_size a + 2 ^ 30 ≤ a ∧
    log_total_cache_size (get_default_total_cache_size a) a avail_log
      = msg_using_cache_size (get_default_total_cache_size a / MEGABYTE) :: avail_log ∧
    msg_larger_than_available ∉
      log_total_cache_size (get_default_total_cache_size a) a avail_log ∧
    msg_little_overhead (a / MEGABYTE) ∉
      log_total_cache_size (get_default_total_cache_size a) a avail_log ∧
    msg_very_low ∉ log_total_cache_size (get_default_total_cache_size a) a avail_log ∧
    ∀ m ∈ log_total_cache_size (get_default_total_cache_size a) a avail_log,
      m.1 ≠ log_level.WRN := by
  have h2 := default_is_half_minus_gigabyte a ha
  rw [tdiv_two] at h2
  have hle : get_default_total_cache_size a + 2 ^ 30 ≤ a := by
    norm_num at ha hd h2 ⊢
    split at h2 <;> omega
  have hlog : log_total_cache_size (get_default_total_cache_size a) a avail_log
      = msg_using_cache_size (get_default_total_cache_size a / MEGABYTE) :: avail_log := by
    have h1 : ¬ (get_default_total_cache_size a > a) := by omega
    have h3 : ¬ ((get_default_total_cache_size a + GIGABYTE) % 2 ^ 64 > a) := by
      simp only [GIGABYTE, MEGABYTE, KILOBYTE]
      norm_num at ha hle ⊢
      omega
    have h4 : ¬ (get_default_total_cache_size a ≤ 100 * MEGABYTE) := by
      simp only [MEGABYTE, KILOBYTE]
      norm_num at hd ⊢
      omega
    simp only [log_total_cache_size, h1, h3, h4, if_false, List.append_nil,
      List.singleton_append]
  refine ⟨hle, hlog, ?_, ?_, ?_, ?_⟩ <;>
    · rw [hlog]
      rcases get_avail_mem_size_log_cases s proc_meminfo memory avail_log hlg with h | h <;>
        · rw [h]
          simp [msg_using_cache_size, msg_larger_than_available, msg_little_overhead,
            msg_very_low, msg_could_not_parse]

/-- With 8 GiB available the default is above the floor. When the 8 GiB were
read from `/proc/meminfo` the log is the information line alone; when
`/proc/meminfo` cannot be read the call logs its `logERR` line after it; no
warning is logged either way. -/
theorem default_leaves_overhead_witness :
    ((8 * 2 ^ 30 : Nat) < 2 ^ 63 ∧
      get_default_total_cache_size (8 * 2 ^ 30) > 100 * 2 ^ 20 ∧
      get_avail_mem_size strtou64_strict (some example_meminfo_8gib) 4096 0 0
        = some (8 * 2 ^ 30) ∧
      get_avail_mem_size_log strtou64_strict (some example_meminfo_8gib) 0 = some [] ∧
      get_avail_mem_size_log strtou64_strict none 0 = some [msg_could_not_parse]) ∧
    (get_default_total_cache_size (8 * 2 ^ 30) + 2 ^ 30 ≤ 8 * 2 ^ 30 ∧
      log_total_cache_size (get_default_total_cache_size (8 * 2 ^ 30)) (8 * 2 ^ 30) []
        = msg_using_cache_size (get_default_total_cache_size (8 * 2 ^ 30) / MEGABYTE) :: [] ∧
      msg_larger_than_available ∉
        log_total_cache_size (get_default_total_cache_size (8 * 2 ^ 30)) (8 * 2 ^ 30) [] ∧
      msg_little_overhead (8 * 2 ^ 30 / MEGABYTE) ∉
        log_total_cache_size (get_default_total_cache_size (8 * 2 ^ 30)) (8 * 2 ^ 30) [] ∧
      msg_very_low ∉
        log_total_cache_size (get_default_total_cache_size (8 * 2 ^ 30)) (8 * 2 ^ 30) [] ∧
      ∀ m ∈ log_total_cache_size (get_default_total_cache_size (8 * 2 ^ 30)) (8 * 2 ^ 30) [],
        m.1 ≠ log_level.WRN) ∧
    (∀ m ∈ log_total_cache_size (get_default_total_cache_size (8 * 2 ^ 30)) (8 * 2 ^ 30)
        [msg_could_not_parse], m.1 ≠ log_level.WRN) ∧
    log_total_cache_size (get_default_total_cache_size (8 * 2 ^ 30)) (8 * 2 ^ 30) []
      = [(log_level.INF, "Using cache size of 3584 MB")] ∧
    log_total_cache_size (get_default_total_cache_size (8 * 2 ^ 30)) (8 * 2 ^ 30)
        [msg_could_not_parse]
      = [(log_level.INF, "Using cache size of 3584 MB"),
         (log_level.ERR, "Could not parse /proc/meminfo, so we will treat cached file memory as if it were unavailable.")] ∧
    log_total_cache_size 104857600 (512 * 2 ^ 20) []
      = [(log_level.INF, "Using cache size of 100 MB"),
         (log_level.WRN, "Cache size does not leave much memory for server and query overhead (available memory: 512 MB)."),
         (log_level.WRN, "Cache size is very low and may impact performance.")] :=
  ⟨⟨by norm_num, by decide, by decide, by decide, by decide⟩,
   default_leaves_overhead (8 * 2 ^ 30) strtou64_strict (some example_meminfo_8gib) 0 []
     (by norm_num) (by decide) (by decide),
   (default_leaves_overhead (8 * 2 ^ 30) strtou64_strict none 0 [msg_could_not_parse]
     (by norm_num) (by decide) (by decide)).2.2.2.2.2,
   by decide, by decide, by decide⟩

/-- Claim C5. The function `validate_total_cache_size` returns `true` exactly
when the size is at most `get_max_total_cache_size()`, which is `2^63 - 1`; on
success `*error_out` is left as it was, and on failure it is the text
`Requested cache size (R MB) is higher than the expected upper bound for this
platform (B MB).` with `R` the size divided by `2^20` and `B` the maximum
divided by `2^20`, both in decimal. For the sizes `2^63` and `2^64 - 1` the
texts are spelled out; the size `2^63 - 1` is accepted. -/
theorem validate_total_cache_size_spec (s : Nat) (error_out : String) :
    get_max_total_cache_size = 2 ^ 63 - 1 ∧
    ((validate_total_cache_size s error_out).1 = true ↔ s ≤ get_max_total_cache_size) ∧
    (validate_total_cache_size s error_out).2 =
      (if (validate_total_cache_size s error_out).1 then error_out
       else
        "Requested cache size (" ++ toString (s / 2 ^ 20) ++ " MB) is higher than " ++
        "the expected upper bound for this platform (" ++
        toString (get_max_total_cache_size / 2 ^ 20) ++ " MB).") ∧
    validate_total_cache_size (2 ^ 63) error_out =
      (false, "Requested cache size (8796093022208 MB) is higher than the expected upper bound for this platform (8796093022207 MB).") ∧
    validate_total_cache_size (2 ^ 64 - 1) error_out =
      (false, "Requested cache size (17592186044415 MB) is higher than the expected upper bound for this platform (8796093022207 MB).") ∧
    validate_total_cache_size (2 ^ 63 - 1) error_out = (true, error_out) ∧
    validate_total_cache_size 0 error_out = (true, error_out) := by
  refine ⟨rfl, ?_, ?_, rfl, rfl, rfl, rfl⟩
  · unfold validate_total_cache_size
    split <;> simp <;> omega
  · unfold validate_total_cache_size
    split
    · simp [validate_error_message, MEGABYTE, KILOBYTE]
    · simp

/-! ## Searching and splitting -/

theorem find_loop_none (p : Char → Bool) (l : Str) (i : Nat)
    (h : ∀ c ∈ l, p c = false) : find_loop p l i = none := by
  induction l generalizing i with
  | nil => rfl
  | cons c cs ih =>
    have hc : p c = false := h c (List.mem_cons_self _ _)
    simp only [find_loop, hc]
    exact ih (i + 1) (fun d hd => h d (List.mem_cons_of_mem _ hd))

theorem find_loop_some (p : Char → Bool) (a b : Str) (c : Char) (i : Nat)
    (h : ∀ d ∈ a, p d = false) (hc : p c = true) :
    find_loop p (a ++ c :: b) i = some (i + a.length) := by
  induction a generalizing i with
  | nil => simp [find_loop, hc]
  | cons d ds ih =>
    have hd : p d = false := h d (List.mem_cons_self _ _)
    have := ih (i + 1) (fun e he => h e (List.mem_cons_of_mem _ he))
    show find_loop p (d :: (ds ++ c :: b)) i = _
    rw [find_loop, hd, this]
    simp only [Bool.false_eq_true, if_false, List.length_cons, Option.some.injEq]
    omega

/-- A text either has no newline or splits at its first newline. -/
theorem newline_cases (l : Str) :
    (∀ c ∈ l, c ≠ '\n') ∨ ∃ a b, l = a ++ '\n' :: b ∧ ∀ c ∈ a, c ≠ '\n' := by
  induction l with
  | nil => left; simp
  | cons c cs ih =>
    by_cases hc : c = '\n'
    · right; exact ⟨[], cs, by simp [hc], by simp⟩
    · rcases ih with h | ⟨a, b, hab, ha⟩
      · left
        intro d hd
        rcases List.mem_cons.mp hd with rfl | hd
        · exact hc
        · exact h d hd
      · right
        refine ⟨c :: a, b, by simp [hab], ?_⟩
        intro d hd
        rcases List.mem_cons.mp hd with rfl | hd
        · exact hc
        · exact ha d hd

theorem split_lines_ne_nil (l : Str) : split_lines l ≠ [] := by
  cases l with
  | nil => simp [split_lines]
  | cons c cs =>
    simp only [split_lines]
    split
    · simp
    · split <;> simp

theorem split_lines_no_newline (l : Str) (h : ∀ c ∈ l, c ≠ '\n') : split_lines l = [l] := by
  induction l with
  | nil => rfl
  | cons c cs ih =>
    have hc : c ≠ '\n' := h c (List.mem_cons_self _ _)
    have := ih (fun d hd => h d (List.mem_cons_of_mem _ hd))
    simp [split_lines, hc, this]

theorem split_lines_newline (a b : Str) (h : ∀ c ∈ a, c ≠ '\n') :
    split_lines (a ++ '\n' :: b) = a :: split_lines b := by
  induction a with
  | nil => simp [split_lines]
  | cons c cs ih =>
    have hc : c ≠ '\n' := h c (List.mem_cons_self _ _)
    have := ih (fun d hd => h d (List.mem_cons_of_mem _ hd))
    simp [split_lines, hc, this]

theorem parse_line_nil (s : Str → Option Nat) : parse_line s [] = none := by
  simp [parse_line, find, find_loop]

/-- Reading the last line of a text (no newline from `offset` on). -/
theorem parse_meminfo_line_last (s : Str → Option Nat) (pre rest : Str)
    (h : ∀ c ∈ rest, c ≠ '\n') :
    parse_meminfo_line s (pre ++ rest) pre.length
      = ((pre ++ rest).length, parse_line s rest) := by
  have hf : find (pre ++ rest) '\n' pre.length = none := by
    unfold find
    rw [List.drop_left]
    exact find_loop_none _ _ _ (fun c hc => by simpa using h c hc)
  simp only [parse_meminfo_line, hf, substr]
  rw [List.drop_left]
  simp

/-- Reading a line that ends in a newline. -/
theorem parse_meminfo_line_newline (s : Str → Option Nat) (pre a b : Str)
    (h : ∀ c ∈ a, c ≠ '\n') :
    parse_meminfo_line s (pre ++ (a ++ '\n' :: b)) pre.length
      = (pre.length + a.length + 1, parse_line s a) := by
  have hf : find (pre ++ (a ++ '\n' :: b)) '\n' pre.length = some (pre.length + a.length) := by
    unfold find
    rw [List.drop_left]
    exact find_loop_some _ _ _ _ _ (fun c hc => by simpa using h c hc) (by simp)
  simp only [parse_meminfo_line, hf, substr]
  rw [List.drop_left]
  simp

/-! ## The loop of `parse_meminfo_file` on the lines of the text -/

theorem loop_eq_scan (s : Str → Option Nat) (fuel : Nat) :
    ∀ (pre rest : Str) (st : meminfo_vars), rest.length + 1 ≤ fuel →
      parse_meminfo_file_loop s (pre ++ rest) fuel pre.length st
        = scan_lines s (split_lines rest) st := by
  induction fuel with
  | zero => intro pre rest st h; omega
  | succ f ih =>
    intro pre rest st hfuel
    rcases newline_cases rest with h | ⟨a, b, rfl, ha⟩
    · rw [split_lines_no_newline rest h]
      cases hp : parse_line s rest with
      | none =>
        simp only [parse_meminfo_file_loop, parse_meminfo_line_last s pre rest h, scan_lines, hp]
      | some r =>
        obtain ⟨name, value, unit⟩ := r
        have hne : rest ≠ [] := by
          rintro rfl
          rw [parse_line_nil] at hp
          exact Option.noConfusion hp
        have hlen : 0 < rest.length := List.length_pos.mpr hne
        cases hr : record_field name value unit st with
        | none =>
          simp only [parse_meminfo_file_loop, parse_meminfo_line_last s pre rest h, scan_lines,
            hp, hr]
        | some st1 =>
          have := ih (pre ++ rest) [] st1 (by simp; omega)
          simp only [List.append_nil] at this
          simp only [parse_meminfo_file_loop, parse_meminfo_line_last s pre rest h, scan_lines,
            hp, hr, this, split_lines, parse_line_nil, ite_self]
    · rw [split_lines_newline a b ha]
      cases hp : parse_line s a with
      | none =>
        simp only [parse_meminfo_file_loop, parse_meminfo_line_newline s pre a b ha, scan_lines,
          hp]
      | some r =>
        obtain ⟨name, value, unit⟩ := r
        cases hr : record_field name value unit st with
        | none =>
          simp only [parse_meminfo_file_loop, parse_meminfo_line_newline s pre a b ha,
            scan_lines, hp, hr]
        | some st1 =>
          have := ih (pre ++ (a ++ ['\n'])) b st1 (by simp at hfuel ⊢; omega)
          simp only [List.length_append, List.length_singleton, List.append_assoc,
            List.singleton_append, ← Nat.add_assoc] at this
          simp only [parse_meminfo_file_loop, parse_meminfo_line_newline s pre a b ha,
            scan_lines, hp, hr, this]

theorem scan_lines_ne_out_of_fuel (s : Str → Option Nat) (ls : List Str) (st : meminfo_vars) :
    scan_lines s ls st ≠ loop_exit.out_of_fuel := by
  induction ls generalizing st with
  | nil => simp [scan_lines]
  | cons l ls ih =>
    simp only [scan_lines]
    split
    · simp
    · split
      · simp
      · split
        · simp
        · exact ih _

/-- The function `parse_meminfo_file` in terms of the lines of the text. -/
theorem parse_meminfo_file_eq (s : Str → Option Nat) (contents : Str) (out : Nat) :
    parse_meminfo_file s contents out =
      match scan_lines s (split_lines contents) meminfo_init with
      | loop_exit.out_of_fuel => none
      | loop_exit.returned_false => some (false, out)
      | loop_exit.done st =>
        if st.seen_memfree && st.seen_cached then
          some (true, (st.memfree + st.cached) % 2 ^ 64)
        else some (false, out) := by
  have := loop_eq_scan s (contents.length + 1) [] contents meminfo_init (le_refl _)
  simp only [List.nil_append, List.length_nil] at this
  simp only [parse_meminfo_file]
  rw [this]

/-! ## Which texts `parse_meminfo_file` accepts -/

theorem parse_line_name (s : Str → Option Nat) (l name unit : Str) (value : Nat)
    (h : parse_line s l = some (name, value, unit)) : line_name l = some name := by
  unfold parse_line at h
  unfold line_name
  cases hf : find l ':' 0 with
  | none => simp [hf] at h
  | some colon =>
    simp only [hf] at h
    split at h
    · exact Option.noConfusion h
    · split at h
      · exact Option.noConfusion h
      · split at h
        · exact Option.noConfusion h
        · simp only [Option.some.injEq, Prod.mk.injEq] at h
          simp [h.1]

theorem is_named_of_parse (s : Str → Option Nat) (l name unit : Str) (value : Nat)
    (h : parse_line s l = some (name, value, unit)) (x : String) :
    is_named x l = decide (name = x.toList) := by
  simp [is_named, parse_line_name s l name unit value h]

theorem line_unit_of_parse (s : Str → Option Nat) (l name unit : Str) (value : Nat)
    (h : parse_line s l = some (name, value, unit)) : line_unit s l = some unit := by
  simp [line_unit, h]

theorem line_value_of_parse (s : Str → Option Nat) (l name unit : Str) (value : Nat)
    (h : parse_line s l = some (name, value, unit)) : line_value s l = some value := by
  simp [line_value, h]

theorem memfree_ne_cached : "MemFree".toList ≠ "Cached".toList := by decide

theorem record_field_some (name unit : Str) (value : Nat) (st st2 : meminfo_vars)
    (h : record_field name value unit st = some st2) :
    (name = "MemFree".toList ∧ st.seen_memfree = false ∧ unit = "kB".toList ∧
      st2 = { st with seen_memfree := true, memfree := value * KILOBYTE % 2 ^ 64 }) ∨
    (name = "Cached".toList ∧ st.seen_cached = false ∧ unit = "kB".toList ∧
      st2 = { st with seen_cached := true, cached := value * KILOBYTE % 2 ^ 64 }) ∨
    (name ≠ "MemFree".toList ∧ name ≠ "Cached".toList ∧ st2 = st) := by
  unfold record_field at h
  by_cases hn1 : name = "MemFree".toList
  · left
    rw [if_pos hn1] at h
    cases hs : st.seen_memfree with
    | true => simp [hs] at h
    | false =>
      by_cases hu : unit = "kB".toList
      · simp only [hs, Bool.false_eq_true, if_false, ne_eq, hu, not_true_eq_false,
          Option.some.injEq] at h
        exact ⟨hn1, rfl, hu, h.symm⟩
      · simp [hs] at h
        exact absurd h.1 hu
  · right
    rw [if_neg hn1] at h
    by_cases hn2 : name = "Cached".toList
    · left
      rw [if_pos hn2] at h
      cases hs : st.seen_cached with
      | true => simp [hs] at h
      | false =>
        by_cases hu : unit = "kB".toList
        · simp only [hs, Bool.false_eq_true, if_false, ne_eq, hu, not_true_eq_false,
            Option.some.injEq] at h
          exact ⟨hn2, rfl, hu, h.symm⟩
        · simp [hs] at h
          exact absurd h.1 hu
    · right
      rw [if_neg hn2] at h
      exact ⟨hn1, hn2, (Option.some.inj h).symm⟩

theorem scan_good_of_done (s : Str → Option Nat) (ls : List Str) :
    ∀ (st st1 : meminfo_vars), (st.seen_memfree && st.seen_cached) = false →
      scan_lines s ls st = loop_exit.done st1 →
      (st1.seen_memfree && st1.seen_cached) = true →
      ∃ pre post, ls = pre ++ post ∧ good_head s st pre := by
  induction ls with
  | nil =>
    intro st st1 hst h h1
    simp only [scan_lines, loop_exit.done.injEq] at h
    subst h
    rw [hst] at h1
    exact Bool.noConfusion h1
  | cons l ls ih =>
    intro st st1 hst h h1
    cases hp : parse_line s l with
    | none =>
      simp only [scan_lines, hp, loop_exit.done.injEq] at h
      subst h
      rw [hst] at h1
      exact Bool.noConfusion h1
    | some r =>
      obtain ⟨name, value, unit⟩ := r
      have hnm := is_named_of_parse s l name unit value hp
      have hun := line_unit_of_parse s l name unit value hp
      have hsome : (parse_line s l).isSome = true := by simp [hp]
      cases hr : record_field name value unit st with
      | none => simp [scan_lines, hp, hr] at h
      | some st2 =>
        simp only [scan_lines, hp, hr] at h
        have hM := hnm "MemFree"
        have hC := hnm "Cached"
        by_cases hboth : (st2.seen_memfree && st2.seen_cached) = true
        · -- the loop ends at this line
          clear ih h
          refine ⟨[l], ls, rfl, ?_⟩
          obtain ⟨mf, ca, sm, sc⟩ := st
          rcases record_field_some name unit value _ st2 hr with
            ⟨hn, hs, hu, rfl⟩ | ⟨hn, hs, hu, rfl⟩ | ⟨hn1, hn2, rfl⟩
          · have hn2 : ¬ ("MemFree".toList = "Cached".toList) := memfree_ne_cached
            simp only [hn, decide_True, hn2, decide_False] at hM hC
            simp only [] at hs hboth
            subst hs hu
            simp only [Bool.true_and] at hboth
            subst hboth
            simp [good_head, List.countP_cons, hM, hC, hsome, hun]
          · have hn2 : ¬ ("Cached".toList = "MemFree".toList) := fun e => memfree_ne_cached e.symm
            simp only [hn, decide_True, hn2, decide_False] at hM hC
            simp only [] at hs hboth
            subst hs hu
            simp only [Bool.and_true] at hboth
            subst hboth
            simp [good_head, List.countP_cons, hM, hC, hsome, hun]
          · rw [hst] at hboth
            exact Bool.noConfusion hboth
        · -- the loop goes on
          have hboth2 : (st2.seen_memfree && st2.seen_cached) = false := by
            simpa using hboth
          simp only [hboth, if_false] at h
          obtain ⟨pre, post, hls, g1, g2, g3, g4, l0, g5, g6⟩ := ih st2 st1 hboth2 h h1
          clear ih h
          have hpre : pre ≠ [] := by
            rintro rfl
            simp at g5
          obtain ⟨p, ps, rfl⟩ := List.exists_cons_of_ne_nil hpre
          refine ⟨l :: p :: ps, post, by simp [hls], ?_⟩
          have hlast : (l :: p :: ps).getLast? = some l0 := by
            rw [List.getLast?_cons_cons]; exact g5
          have hall : ∀ x ∈ l :: p :: ps, (parse_line s x).isSome = true := by
            intro x hx
            rcases List.mem_cons.mp hx with rfl | hx
            · exact hsome
            · exact g1 x hx
          obtain ⟨mf, ca, sm, sc⟩ := st
          rcases record_field_some name unit value _ st2 hr with
            ⟨hn, hs, hu, rfl⟩ | ⟨hn, hs, hu, rfl⟩ | ⟨hn1, hn2, rfl⟩
          · have hn2 : ¬ ("MemFree".toList = "Cached".toList) := memfree_ne_cached
            simp only [hn, decide_True, hn2, decide_False] at hM hC
            simp only [] at hs
            subst hs hu
            simp only [if_true] at g2 g3
            refine ⟨hall, ?_, ?_, ?_, l0, hlast, g6⟩
            · rw [List.countP_cons, hM]; simpa using g2
            · rw [List.countP_cons, hC]; simpa using g3
            · intro x hx hx2
              rcases List.mem_cons.mp hx with rfl | hx
              · exact hun
              · exact g4 x hx hx2
          · have hn2 : ¬ ("Cached".toList = "MemFree".toList) := fun e => memfree_ne_cached e.symm
            simp only [hn, decide_True, hn2, decide_False] at hM hC
            simp only [] at hs
            subst hs hu
            simp only [if_true] at g2 g3
            refine ⟨hall, ?_, ?_, ?_, l0, hlast, g6⟩
            · rw [List.countP_cons, hM]; simpa using g2
            · rw [List.countP_cons, hC]; simpa using g3
            · intro x hx hx2
              rcases List.mem_cons.mp hx with rfl | hx
              · exact hun
              · exact g4 x hx hx2
          · simp only [hn1, hn2, decide_False] at hM hC
            refine ⟨hall, ?_, ?_, ?_, l0, hlast, g6⟩
            · rw [List.countP_cons, hM]; simpa using g2
            · rw [List.countP_cons, hC]; simpa using g3
            · intro x hx hx2
              rcases List.mem_cons.mp hx with rfl | hx
              · rw [hM, hC] at hx2
                simp at hx2
              · exact g4 x hx hx2

theorem record_field_memfree (value : Nat) (st : meminfo_vars) (hs : st.seen_memfree = false) :
    record_field "MemFree".toList value "kB".toList st
      = some { st with seen_memfree := true, memfree := value * KILOBYTE % 2 ^ 64 } := by
  simp [record_field, hs]

theorem record_field_cached (value : Nat) (st : meminfo_vars) (hs : st.seen_cached = false) :
    record_field "Cached".toList value "kB".toList st
      = some { st with seen_cached := true, cached := value * KILOBYTE % 2 ^ 64 } := by
  simp [record_field, hs]

theorem record_field_other (name unit : Str) (value : Nat) (st : meminfo_vars)
    (h1 : name ≠ "MemFree".toList) (h2 : name ≠ "Cached".toList) :
    record_field name value unit st = some st := by
  unfold record_field
  rw [if_neg h1, if_neg h2]

theorem scan_done_of_good (s : Str → Option Nat) (pre : List Str) :
    ∀ (post : List Str) (st : meminfo_vars), (st.seen_memfree && st.seen_cached) = false →
      good_head s st pre →
      ∃ st1, scan_lines s (pre ++ post) st = loop_exit.done st1 ∧
        (st1.seen_memfree && st1.seen_cached) = true := by
  induction pre with
  | nil =>
    rintro post st - ⟨-, -, -, -, l0, g5, -⟩
    simp at g5
  | cons l pre ih =>
    rintro post st hst ⟨g1, g2, g3, g4, l0, g5, g6⟩
    have hsome := g1 l (List.mem_cons_self _ _)
    cases hp : parse_line s l with
    | none => simp [hp] at hsome
    | some r =>
      obtain ⟨name, value, unit⟩ := r
      have hnm := is_named_of_parse s l name unit value hp
      have hun := line_unit_of_parse s l name unit value hp
      have hM := hnm "MemFree"
      have hC := hnm "Cached"
      have g1r : ∀ x ∈ pre, (parse_line s x).isSome = true :=
        fun x hx => g1 x (List.mem_cons_of_mem _ hx)
      have g4r : ∀ x ∈ pre, is_named "MemFree" x = true ∨ is_named "Cached" x = true →
          line_unit s x = some "kB".toList :=
        fun x hx => g4 x (List.mem_cons_of_mem _ hx)
      have hlast : pre ≠ [] → pre.getLast? = some l0 := by
        intro hne
        obtain ⟨p, ps, rfl⟩ := List.exists_cons_of_ne_nil hne
        rw [List.getLast?_cons_cons] at g5
        exact g5
      rw [List.countP_cons] at g2 g3
      obtain ⟨mf, ca, sm, sc⟩ := st
      simp only [] at hst g2 g3
      by_cases hn1 : name = "MemFree".toList
      · have hn2 : ¬ ("MemFree".toList = "Cached".toList) := memfree_ne_cached
        simp only [hn1, decide_True, hn2, decide_False] at hM hC
        have hu : unit = "kB".toList := by
          have := g4 l (List.mem_cons_self _ _) (Or.inl hM)
          rw [hun] at this
          exact Option.some.inj this
        rw [hM] at g2
        rw [hC] at g3
        have hsm : sm = false := by
          cases sm
          · rfl
          · simp at g2
        subst hsm hn1 hu
        have hr := record_field_memfree value
          { memfree := mf, cached := ca, seen_memfree := false, seen_cached := sc } rfl
        cases sc with
        | true =>
          refine ⟨{ memfree := value * KILOBYTE % 2 ^ 64, cached := ca, seen_memfree := true,
                    seen_cached := true }, ?_, rfl⟩
          simp only [List.cons_append, scan_lines, hp, hr]
          rfl
        | false =>
          have hne : pre ≠ [] := by
            rintro rfl
            simp at g3
          have hg : good_head s
              { memfree := value * KILOBYTE % 2 ^ 64, cached := ca, seen_memfree := true,
                seen_cached := false } pre :=
            ⟨g1r, by simpa using g2, by simpa using g3, g4r, l0, hlast hne, g6⟩
          obtain ⟨st1, h1, h2⟩ := ih post
            { memfree := value * KILOBYTE % 2 ^ 64, cached := ca, seen_memfree := true,
              seen_cached := false } rfl hg
          refine ⟨st1, ?_, h2⟩
          simp only [List.cons_append, scan_lines, hp, hr]
          exact h1
      · by_cases hn2 : name = "Cached".toList
        · have hn3 : ¬ ("Cached".toList = "MemFree".toList) := fun e => memfree_ne_cached e.symm
          simp only [hn2, decide_True, hn3, decide_False] at hM hC
          have hu : unit = "kB".toList := by
            have := g4 l (List.mem_cons_self _ _) (Or.inr hC)
            rw [hun] at this
            exact Option.some.inj this
          rw [hM] at g2
          rw [hC] at g3
          have hsc : sc = false := by
            cases sc
            · rfl
            · simp at g3
          subst hsc hn2 hu
          have hr := record_field_cached value
            { memfree := mf, cached := ca, seen_memfree := sm, seen_cached := false } rfl
          cases sm with
          | true =>
            refine ⟨{ memfree := mf, cached := value * KILOBYTE % 2 ^ 64, seen_memfree := true,
                      seen_cached := true }, ?_, rfl⟩
            simp only [List.cons_append, scan_lines, hp, hr]
            rfl
          | false =>
            have hne : pre ≠ [] := by
              rintro rfl
              simp at g2
            have hg : good_head s
                { memfree := mf, cached := value * KILOBYTE % 2 ^ 64, seen_memfree := false,
                  seen_cached := true } pre :=
              ⟨g1r, by simpa using g2, by simpa using g3, g4r, l0, hlast hne, g6⟩
            obtain ⟨st1, h1, h2⟩ := ih post
              { memfree := mf, cached := value * KILOBYTE % 2 ^ 64, seen_memfree := false,
                seen_cached := true } rfl hg
            refine ⟨st1, ?_, h2⟩
            simp only [List.cons_append, scan_lines, hp, hr]
            exact h1
        · simp only [hn1, hn2, decide_False] at hM hC
          have hr := record_field_other name unit value
            { memfree := mf, cached := ca, seen_memfree := sm, seen_cached := sc } hn1 hn2
          rw [hM] at g2
          rw [hC] at g3
          have hne : pre ≠ [] := by
            rintro rfl
            simp only [List.getLast?_singleton, Option.some.injEq] at g5
            subst g5
            rw [hM, hC] at g6
            simp at g6
          have hg : good_head s
              { memfree := mf, cached := ca, seen_memfree := sm, seen_cached := sc } pre :=
            ⟨g1r, by simpa using g2, by simpa using g3, g4r, l0, hlast hne, g6⟩
          obtain ⟨st1, h1, h2⟩ := ih post _ hst hg
          refine ⟨st1, ?_, h2⟩
          simp only [List.cons_append, scan_lines, hp, hr, hst]
          exact h1

theorem good_head_iff_index (s : Str → Option Nat) (ls : List Str) :
    (∃ pre post, ls = pre ++ post ∧ good_head s meminfo_init pre) ↔
    ∃ k, k < ls.length ∧
      (∀ l ∈ ls.take (k + 1), (parse_line s l).isSome = true) ∧
      (ls.take (k + 1)).countP (is_named "MemFree") = 1 ∧
      (ls.take (k + 1)).countP (is_named "Cached") = 1 ∧
      (∀ l ∈ ls.take (k + 1), is_named "MemFree" l = true ∨ is_named "Cached" l = true →
        line_unit s l = some "kB".toList) ∧
      (∃ l, ls[k]? = some l ∧ (is_named "MemFree" l = true ∨ is_named "Cached" l = true)) := by
  constructor
  · rintro ⟨pre, post, rfl, g1, g2, g3, g4, l0, g5, g6⟩
    have hne : pre ≠ [] := by
      rintro rfl
      simp at g5
    have hlen : 0 < pre.length := List.length_pos.mpr hne
    have hk : pre.length - 1 + 1 = pre.length := by omega
    refine ⟨pre.length - 1, by simp; omega, ?_⟩
    rw [hk, List.take_left]
    refine ⟨g1, by simpa [meminfo_init] using g2, by simpa [meminfo_init] using g3, g4, l0, ?_, g6⟩
    rw [List.getElem?_append_left (by omega), ← List.getLast?_eq_getElem?]
    exact g5
  · rintro ⟨k, hk, g1, g2, g3, g4, l0, g5, g6⟩
    refine ⟨ls.take (k + 1), ls.drop (k + 1), (List.take_append_drop _ _).symm,
      g1, by simpa [meminfo_init] using g2, by simpa [meminfo_init] using g3, g4, l0, ?_, g6⟩
    rw [List.getLast?_eq_getElem?, List.length_take, Nat.min_eq_left (by omega),
      Nat.add_sub_cancel, List.getElem?_take_of_succ]
    exact g5

theorem scan_values (s : Str → Option Nat) (ls : List Str) :
    ∀ (st st1 : meminfo_vars), (st.seen_memfree && st.seen_cached) = false →
      scan_lines s ls st = loop_exit.done st1 →
      (st1.seen_memfree && st1.seen_cached) = true →
      (if st.seen_memfree then st1.memfree = st.memfree
       else ∃ lm m, ls.find? (is_named "MemFree") = some lm ∧ line_value s lm = some m ∧
              st1.memfree = m * KILOBYTE % 2 ^ 64) ∧
      (if st.seen_cached then st1.cached = st.cached
       else ∃ lc c, ls.find? (is_named "Cached") = some lc ∧ line_value s lc = some c ∧
              st1.cached = c * KILOBYTE % 2 ^ 64) := by
  induction ls with
  | nil =>
    intro st st1 hst h h1
    simp only [scan_lines, loop_exit.done.injEq] at h
    subst h
    rw [hst] at h1
    exact Bool.noConfusion h1
  | cons l ls ih =>
    intro st st1 hst h h1
    cases hp : parse_line s l with
    | none =>
      simp only [scan_lines, hp, loop_exit.done.injEq] at h
      subst h
      rw [hst] at h1
      exact Bool.noConfusion h1
    | some r =>
      obtain ⟨name, value, unit⟩ := r
      have hnm := is_named_of_parse s l name unit value hp
      have hval := line_value_of_parse s l name unit value hp
      cases hr : record_field name value unit st with
      | none => simp [scan_lines, hp, hr] at h
      | some st2 =>
        simp only [scan_lines, hp, hr] at h
        have hM := hnm "MemFree"
        have hC := hnm "Cached"
        obtain ⟨mf, ca, sm, sc⟩ := st
        rcases record_field_some name unit value _ st2 hr with
          ⟨hn, hs, hu, rfl⟩ | ⟨hn, hs, hu, rfl⟩ | ⟨hn1, hn2, rfl⟩
        · have hn2 : ¬ ("MemFree".toList = "Cached".toList) := memfree_ne_cached
          simp only [hn, decide_True, hn2, decide_False] at hM hC
          simp only [] at hs
          subst hs
          have hfindM : (l :: ls).find? (is_named "MemFree") = some l :=
            List.find?_cons_of_pos _ hM
          have hfindC : (l :: ls).find? (is_named "Cached") = ls.find? (is_named "Cached") :=
            List.find?_cons_of_neg _ (by simp [hC])
          cases sc with
          | true =>
            simp only [Bool.and_self, if_true, loop_exit.done.injEq] at h
            subst h
            refine ⟨?_, ?_⟩
            · simp only [Bool.false_eq_true, if_false]
              exact ⟨l, value, hfindM, hval, rfl⟩
            · simp only [if_true]
          | false =>
            simp only [Bool.and_false, Bool.false_eq_true, if_false] at h
            have := ih (meminfo_vars.mk (value * KILOBYTE % 2 ^ 64) ca true false) st1 rfl h h1
            simp only [if_true, Bool.false_eq_true, if_false] at this
            obtain ⟨e1, lc, c, e2, e3, e4⟩ := this
            refine ⟨?_, ?_⟩
            · simp only [Bool.false_eq_true, if_false]
              exact ⟨l, value, hfindM, hval, e1⟩
            · simp only [Bool.false_eq_true, if_false]
              exact ⟨lc, c, hfindC.trans e2, e3, e4⟩
        · have hn2 : ¬ ("Cached".toList = "MemFree".toList) := fun e => memfree_ne_cached e.symm
          simp only [hn, decide_True, hn2, decide_False] at hM hC
          simp only [] at hs
          subst hs
          have hfindC : (l :: ls).find? (is_named "Cached") = some l :=
            List.find?_cons_of_pos _ hC
          have hfindM : (l :: ls).find? (is_named "MemFree") = ls.find? (is_named "MemFree") :=
            List.find?_cons_of_neg _ (by simp [hM])
          cases sm with
          | true =>
            simp only [Bool.and_self, if_true, loop_exit.done.injEq] at h
            subst h
            refine ⟨?_, ?_⟩
            · simp only [if_true]
            · simp only [Bool.false_eq_true, if_false]
              exact ⟨l, value, hfindC, hval, rfl⟩
          | false =>
            simp only [Bool.false_and, Bool.false_eq_true, if_false] at h
            have := ih (meminfo_vars.mk mf (value * KILOBYTE % 2 ^ 64) false true) st1 rfl h h1
            simp only [if_true, Bool.false_eq_true, if_false] at this
            obtain ⟨⟨lm, m, e2, e3, e4⟩, e1⟩ := this
            refine ⟨?_, ?_⟩
            · simp only [Bool.false_eq_true, if_false]
              exact ⟨lm, m, hfindM.trans e2, e3, e4⟩
            · simp only [Bool.false_eq_true, if_false]
              exact ⟨l, value, hfindC, hval, e1⟩
        · simp only [hn1, hn2, decide_False] at hM hC
          have hfindC : (l :: ls).find? (is_named "Cached") = ls.find? (is_named "Cached") :=
            List.find?_cons_of_neg _ (by simp [hC])
          have hfindM : (l :: ls).find? (is_named "MemFree") = ls.find? (is_named "MemFree") :=
            List.find?_cons_of_neg _ (by simp [hM])
          rw [hst] at h
          simp only [Bool.false_eq_true, if_false] at h
          have := ih _ st1 hst h h1
          rw [hfindC, hfindM]
          exact this

/-- The `scan_lines` loop ends with both fields seen exactly when some
non-empty initial segment of the lines is a `good_head`. -/
theorem scan_done_iff (s : Str → Option Nat) (ls : List Str) :
    (∃ st1, scan_lines s ls meminfo_init = loop_exit.done st1 ∧
        (st1.seen_memfree && st1.seen_cached) = true) ↔
    ∃ k, k < ls.length ∧
      (∀ l ∈ ls.take (k + 1), (parse_line s l).isSome = true) ∧
      (ls.take (k + 1)).countP (is_named "MemFree") = 1 ∧
      (ls.take (k + 1)).countP (is_named "Cached") = 1 ∧
      (∀ l ∈ ls.take (k + 1), is_named "MemFree" l = true ∨ is_named "Cached" l = true →
        line_unit s l = some "kB".toList) ∧
      (∃ l, ls[k]? = some l ∧ (is_named "MemFree" l = true ∨ is_named "Cached" l = true)) := by
  rw [← good_head_iff_index]
  constructor
  · rintro ⟨st1, h, h1⟩
    exact scan_good_of_done s ls meminfo_init st1 rfl h h1
  · rintro ⟨pre, post, rfl, hg⟩
    exact scan_done_of_good s pre post meminfo_init rfl hg

/-- The result of `parse_meminfo_file` is `true` exactly when the loop ends
with both fields seen, and then the sum of the two fields is written. -/
theorem parse_meminfo_file_cases (s : Str → Option Nat) (contents : Str) (out : Nat) :
    (∃ st1, scan_lines s (split_lines contents) meminfo_init = loop_exit.done st1 ∧
        (st1.seen_memfree && st1.seen_cached) = true ∧
        parse_meminfo_file s contents out = some (true, (st1.memfree + st1.cached) % 2 ^ 64)) ∨
    ((¬ ∃ st1, scan_lines s (split_lines contents) meminfo_init = loop_exit.done st1 ∧
        (st1.seen_memfree && st1.seen_cached) = true) ∧
      parse_meminfo_file s contents out = some (false, out)) := by
  rw [parse_meminfo_file_eq]
  cases hsc : scan_lines s (split_lines contents) meminfo_init with
  | out_of_fuel => exact absurd hsc (scan_lines_ne_out_of_fuel _ _ _)
  | returned_false =>
    right
    refine ⟨?_, rfl⟩
    rintro ⟨st1, h, -⟩
    exact loop_exit.noConfusion h
  | done st =>
    by_cases hb : (st.seen_memfree && st.seen_cached) = true
    · left
      exact ⟨st, rfl, hb, by simp only [hb, if_true]⟩
    · right
      refine ⟨?_, by simp only [hb, Bool.false_eq_true, if_false]⟩
      rintro ⟨st1, h, h1⟩
      simp only [loop_exit.done.injEq] at h
      subst h
      exact hb h1

/-- When `parse_meminfo_file` returns `true`, what it writes does not depend
on what `*mem_avail_out` held before. -/
theorem parse_meminfo_file_true_any_out (s : Str → Option Nat) (contents : Str)
    (out out2 v : Nat) (h : parse_meminfo_file s contents out = some (true, v)) :
    parse_meminfo_file s contents out2 = some (true, v) := by
  rcases parse_meminfo_file_cases s contents out with ⟨st1, hsc, hb, hres⟩ | ⟨-, hres⟩
  · rcases parse_meminfo_file_cases s contents out2 with ⟨st2, hsc2, -, hres2⟩ | ⟨hno, -⟩
    · rw [hsc] at hsc2
      simp only [loop_exit.done.injEq] at hsc2
      subst hsc2
      rw [hres2, ← hres, h]
    · exact absurd ⟨st1, hsc, hb⟩ hno
  · rw [hres] at h
    simp at h

/-- Claim C1. Available memory is MemFree plus Cached, in bytes. Whenever
`parse_meminfo_file` returns `true` on a text, writing `v`, the text has a first
line named exactly `MemFree` and a first line named exactly `Cached` (in either
order), `parse_meminfo_line` accepts both with numbers `m` and `c`, and
`v = (m * 1024 + c * 1024) mod 2^64`; in particular `v = 1024 * (m + c)` when
`m + c < 2^54`. `get_avail_mem_size` then returns `v`. This holds for every
conversion function in the place of `strtou64_strict`. -/
theorem mem_avail_is_memfree_plus_cached (s : Str → Option Nat) (contents : Str)
    (out v page_size avphys_pages memory : Nat)
    (h : parse_meminfo_file s contents out = some (true, v)) :
    ∃ lm lc m c,
      (split_lines contents).find? (is_named "MemFree") = some lm ∧
      (split_lines contents).find? (is_named "Cached") = some lc ∧
      line_value s lm = some m ∧ line_value s lc = some c ∧
      v = (m * 1024 + c * 1024) % 2 ^ 64 ∧
      (m + c < 2 ^ 54 → v = 1024 * (m + c)) ∧
      get_avail_mem_size s (some contents) page_size avphys_pages memory = some v := by
  rcases parse_meminfo_file_cases s contents out with ⟨st1, hsc, hb, hres⟩ | ⟨-, hres⟩
  · have h0 := parse_meminfo_file_true_any_out s contents out memory v h
    rw [hres] at h
    simp only [Option.some.injEq, Prod.mk.injEq, true_and] at h
    obtain ⟨⟨lm, m, f1, v1, e1⟩, ⟨lc, c, f2, v2, e2⟩⟩ :=
      scan_values s (split_lines contents) meminfo_init st1 rfl hsc hb
    have hv : v = (m * 1024 + c * 1024) % 2 ^ 64 := by
      rw [← h, e1, e2]
      simp only [KILOBYTE]
      omega
    refine ⟨lm, lc, m, c, f1, f2, v1, v2, hv, ?_, ?_⟩
    · intro hlt
      rw [hv]
      norm_num at hlt ⊢
      omega
    · simp only [get_avail_mem_size, get_proc_meminfo_available_memory_size, h0]
  · rw [hres] at h
    simp at h

/-- The text of the example of claim C1 gives `true` and 307200 bytes, from the
numbers 100 and 200 on its `MemFree` and `Cached` lines. -/
theorem mem_avail_is_memfree_plus_cached_witness :
    parse_meminfo_file strtou64_strict example_meminfo 0 = some (true, 307200) ∧
    line_value strtou64_strict "MemFree: 100 kB".toList = some 100 ∧
    line_value strtou64_strict "Cached: 200 kB".toList = some 200 ∧
    ∃ lm lc m c,
      (split_lines example_meminfo).find? (is_named "MemFree") = some lm ∧
      (split_lines example_meminfo).find? (is_named "Cached") = some lc ∧
      line_value strtou64_strict lm = some m ∧ line_value strtou64_strict lc = some c ∧
      307200 = (m * 1024 + c * 1024) % 2 ^ 64 ∧
      (m + c < 2 ^ 54 → 307200 = 1024 * (m + c)) ∧
      get_avail_mem_size strtou64_strict (some example_meminfo) 4096 0 0 = some 307200 :=
  ⟨by decide, by decide, by decide,
   mem_avail_is_memfree_plus_cached strtou64_strict example_meminfo 0 307200 4096 0 0
     (by decide)⟩

/-- Claim C10. On every text `parse_meminfo_file` returns; it leaves
`*mem_avail_out` as it was unless it returns `true`; and it returns `true`
exactly when there is an index `k` such that each of the first `k + 1` lines is
accepted by `parse_meminfo_line`, exactly one of them is named `MemFree` and
exactly one `Cached`, both of these have the unit `kB`, and line `k` is one of
the two. The two texts of the claim, one with `MemFree` repeated and one with an
empty line before `Cached`, give `false`. -/
theorem parse_meminfo_file_true_iff :
    (∀ (s : Str → Option Nat) (contents : Str) (out : Nat),
      ∃ b v, parse_meminfo_file s contents out = some (b, v) ∧
        (b = true ∨ v = out) ∧
        (b = true ↔
          ∃ k, k < (split_lines contents).length ∧
            (∀ l ∈ (split_lines contents).take (k + 1), (parse_line s l).isSome = true) ∧
            ((split_lines contents).take (k + 1)).countP (is_named "MemFree") = 1 ∧
            ((split_lines contents).take (k + 1)).countP (is_named "Cached") = 1 ∧
            (∀ l ∈ (split_lines contents).take (k + 1),
              is_named "MemFree" l = true ∨ is_named "Cached" l = true →
                line_unit s l = some "kB".toList) ∧
            (∃ l, (split_lines contents)[k]? = some l ∧
              (is_named "MemFree" l = true ∨ is_named "Cached" l = true)))) ∧
    (∀ out, parse_meminfo_file strtou64_strict
        "MemFree: 1 kB\nMemFree: 1 kB\nCached: 1 kB\n".toList out = some (false, out)) ∧
    (∀ out, parse_meminfo_file strtou64_strict
        "MemFree: 1 kB\n\nCached: 1 kB\n".toList out = some (false, out)) := by
  refine ⟨?_, fun out => rfl, fun out => rfl⟩
  intro s contents out
  rcases parse_meminfo_file_cases s contents out with ⟨st1, hsc, hb, hres⟩ | ⟨hno, hres⟩
  · refine ⟨true, _, hres, Or.inl rfl, ?_⟩
    simp only [true_iff]
    exact (scan_done_iff s (split_lines contents)).mp ⟨st1, hsc, hb⟩
  · refine ⟨false, out, hres, Or.inr rfl, ?_⟩
    simp only [Bool.false_eq_true, false_iff]
    exact fun hk => hno ((scan_done_iff s (split_lines contents)).mpr hk)

end CacheSize

namespace Backfill

/-- Claim C6. The function `extract_backfiller_peer_id` returns the nil peer
id when the outer optional is empty, when the inner optional is empty, and
when the card's `backfill_mailbox` is nil; otherwise it returns
`backfill_mailbox.get_peer()`. -/
theorem extract_backfiller_peer_id_spec {peer_id_t addr : Type} (nil_peer : peer_id_t)
    (is_nil : addr → Bool) (get_peer : addr → peer_id_t) :
    extract_backfiller_peer_id nil_peer is_nil get_peer none = nil_peer ∧
    extract_backfiller_peer_id nil_peer is_nil get_peer (some none) = nil_peer ∧
    ∀ card : backfiller_business_card_t addr,
      extract_backfiller_peer_id nil_peer is_nil get_peer (some (some card)) =
        if is_nil card.backfill_mailbox then nil_peer else get_peer card.backfill_mailbox := by
  refine ⟨rfl, rfl, ?_⟩
  intro card
  simp only [extract_backfiller_peer_id]
  cases is_nil card.backfill_mailbox <;> simp

/-! ## `compute_delta` partitions the region -/

/-- The sub-regions named by a successful `compute_delta` are the non-empty
intersections of the metainfo's sub-regions with the region, in order. -/
theorem compute_delta_sub_regions (h : BranchHistory) (rb : BranchId) (rt : Timestamp)
    (r : Region) (m : Metainfo) :
    ∀ ds, compute_delta h m rb rt r = Except.ok ds →
      ds.map directive.sub_region
        = (m.map (fun e => intersect e.1 r)).filter (fun x => !is_empty x) := by
  induction m with
  | nil =>
    intro ds hok
    simp only [compute_delta, Except.ok.injEq] at hok
    subst hok
    rfl
  | cons e rest ih =>
    intro ds hok
    obtain ⟨sub, b, t⟩ := e
    simp only [compute_delta] at hok
    by_cases hemp : is_empty (intersect sub r) = true
    · simp only [hemp, if_true] at hok
      rw [ih ds hok]
      simp [hemp]
    · simp only [hemp, Bool.false_eq_true, if_false] at hok
      cases hm : mode_for h b t rb rt with
      | error e => simp [hm] at hok
      | ok mode =>
        cases hr : compute_delta h rest rb rt r with
        | error e => simp [hm, hr] at hok
        | ok ds1 =>
          simp only [hm, hr, Except.ok.injEq] at hok
          subst hok
          simp [ih ds1 hr, hemp]

theorem union_filter_nonempty (l : List Region) :
    (l.filter (fun x => !is_empty x)).foldr union_regions ∅ = l.foldr union_regions ∅ := by
  induction l with
  | nil => rfl
  | cons a l ih =>
    by_cases ha : is_empty a = true
    · have : a = ∅ := by simpa [is_empty] using ha
      subst this
      rw [List.filter_cons, ha]
      simp only [Bool.not_true, Bool.false_eq_true, if_false, List.foldr_cons, ih, union_regions,
        Finset.empty_union]
    · simp [List.filter_cons, ha, ih]

theorem union_intersect (l : List Region) (r : Region) :
    (l.map (fun x => intersect x r)).foldr union_regions ∅
      = intersect (l.foldr union_regions ∅) r := by
  induction l with
  | nil => simp [intersect]
  | cons a l ih =>
    simp only [List.map_cons, List.foldr_cons, ih]
    simp only [union_regions, intersect]
    rw [Finset.union_inter_distrib_right]

/-! ## `compute_delta` succeeds on a well-formed history -/

theorem find_first (p : Branch → Bool) (h : BranchHistory) :
    ∀ (j : Nat) (x : Branch), h[j]? = some x → p x = true →
      ∃ j1 y, j1 ≤ j ∧ h[j1]? = some y ∧ h.find? p = some y ∧ p y = true := by
  induction h with
  | nil => intro j x hx; simp at hx
  | cons a h ih =>
    intro j x hx hp
    by_cases ha : p a = true
    · exact ⟨0, a, Nat.zero_le _, by simp, by simp [List.find?_cons, ha], ha⟩
    · cases j with
      | zero =>
        simp only [List.getElem?_cons_zero, Option.some.injEq] at hx
        subst hx
        exact absurd hp ha
      | succ j =>
        simp only [List.getElem?_cons_succ] at hx
        obtain ⟨j1, y, hle, hy, hf, hpy⟩ := ih j x hx hp
        refine ⟨j1 + 1, y, by omega, by simpa using hy, ?_, hpy⟩
        simp only [List.find?_cons]
        rw [Bool.not_eq_true] at ha
        rw [ha]
        exact hf

theorem ancestry_ok (h : BranchHistory) (hc : history_closed h) (budget : Nat) :
    ∀ (n : Nat) (b : BranchId) (t : Timestamp),
      (∃ (j : Nat) (br : Branch), j < n ∧ h[j]? = some br ∧ br.id = b) → n ≤ budget →
      ∃ chain, ancestry h budget b t = Except.ok chain := by
  induction budget with
  | zero =>
    rintro n b t ⟨j, br, hj, -, -⟩ hn
    omega
  | succ k ih =>
    rintro n b t ⟨j, br, hj, hbr, hid⟩ hn
    obtain ⟨j1, y, hle, hy, hf, hpy⟩ :=
      find_first (fun x => x.id == b) h j br hbr (by simp [hid])
    have hfb : find_branch h b = some y := hf
    unfold ancestry
    rw [hfb]
    cases ho : y.origin with
    | none => exact ⟨[(b, t)], by simp only [ho]⟩
    | some o =>
      obtain ⟨p, f⟩ := o
      have hc2 := hc
      unfold history_closed at hc2
      obtain ⟨j2, pb, hlt, hpb, hpid⟩ := hc2 j1 y p f hy ho
      obtain ⟨chain, hchain⟩ := ih j1 p f ⟨j2, pb, hlt, hpb, hpid⟩ (by omega)
      exact ⟨(b, t) :: chain, by simp only [ho, hchain]⟩

theorem ancestry_known (h : BranchHistory) (hc : history_closed h) (b : BranchId)
    (t : Timestamp) (hb : branch_known h b) :
    ∃ chain, ancestry h (h.length + 1) b t = Except.ok chain := by
  obtain ⟨j, br, hbr, hid⟩ := hb
  have hj : j < h.length := (List.getElem?_eq_some.mp hbr).1
  exact ancestry_ok h hc (h.length + 1) h.length b t ⟨j, br, hj, hbr, hid⟩ (by omega)

theorem mode_for_ok (h : BranchHistory) (hc : history_closed h) (lb rb : BranchId)
    (lt rt : Timestamp) (hl : branch_known h lb) (hr : branch_known h rb) :
    ∃ mode, mode_for h lb lt rb rt = Except.ok mode := by
  obtain ⟨c1, h1⟩ := ancestry_known h hc lb lt hl
  obtain ⟨c2, h2⟩ := ancestry_known h hc rb rt hr
  unfold mode_for
  simp only [h1, h2]
  split
  · split
    · exact ⟨_, rfl⟩
    · exact ⟨_, rfl⟩
  · exact ⟨_, rfl⟩

/-- On a well-formed history that knows the remote branch and every branch of
the local metainfo, `compute_delta` produces directives. -/
theorem compute_delta_ok (h : BranchHistory) (hc : history_closed h) (rb : BranchId)
    (rt : Timestamp) (r : Region) (hr : branch_known h rb) (m : Metainfo) :
    (∀ e ∈ m, branch_known h e.2.1) → ∃ ds, compute_delta h m rb rt r = Except.ok ds := by
  induction m with
  | nil => intro _; exact ⟨[], rfl⟩
  | cons e rest ih =>
    intro hm
    obtain ⟨sub, b, t⟩ := e
    obtain ⟨ds, hds⟩ := ih (fun x hx => hm x (List.mem_cons_of_mem _ hx))
    obtain ⟨mode, hmode⟩ := mode_for_ok h hc b rb t rt (hm _ (List.mem_cons_self _ _)) hr
    simp only [compute_delta, hds, hmode]
    split
    · exact ⟨_, rfl⟩
    · exact ⟨_, rfl⟩

/-- Claim C9. For every region `r` and every metainfo `m` that covers `r`
(with pairwise disjoint sub-regions), the directives that `compute_delta`
produces name sub-regions that are pairwise disjoint and whose union is `r`;
and it does produce directives when the history is well formed and knows the
remote branch and the branches of `m`. -/
theorem compute_delta_partitions (h : BranchHistory) (m : Metainfo) (rb : BranchId)
    (rt : Timestamp) (r : Region)
    (hdisj : metainfo_disjoint m) (hcov : metainfo_covers m r) :
    (∀ ds, compute_delta h m rb rt r = Except.ok ds →
      (ds.map directive.sub_region).Pairwise (fun a b => Disjoint a b) ∧
      (ds.map directive.sub_region).foldr union_regions ∅ = r) ∧
    (history_closed h → branch_known h rb → (∀ e ∈ m, branch_known h e.2.1) →
      ∃ ds, compute_delta h m rb rt r = Except.ok ds) := by
  refine ⟨?_, fun hc hr hm => compute_delta_ok h hc rb rt r hr m hm⟩
  intro ds hok
  rw [compute_delta_sub_regions h rb rt r m ds hok]
  constructor
  · apply List.Pairwise.filter
    rw [List.pairwise_map]
    exact hdisj.imp (fun hab => by
      simp only [intersect]
      exact Disjoint.mono Finset.inter_subset_left Finset.inter_subset_left hab)
  · rw [union_filter_nonempty]
    have := union_intersect (m.map (fun e => e.1)) r
    simp only [List.map_map] at this
    rw [show (m.map (fun e => intersect e.1 r)) = m.map ((fun x => intersect x r) ∘ fun e => e.1)
      from rfl, this]
    simp only [intersect]
    exact Finset.inter_eq_right.mpr hcov

set_option maxRecDepth 100000 in
/-- The metainfo `example_metainfo` has four sub-regions, one of them on a
forked branch; the region `{1,2,3,6}` cuts the first three and misses the
fourth. Against the remote branch 1 at timestamp 12 the delta is `{1,2}`
incremental since 5, `{3}` as a full snapshot and `{6}` incremental since 5:
three pairwise disjoint sub-regions whose union is the region. The scenario of
the specification (`[0,100)` at branch 1, timestamp 5) gives the one sub-region
`[0,100)`, incremental since 5. -/
theorem compute_delta_partitions_witness :
    (metainfo_disjoint example_metainfo ∧
      metainfo_covers example_metainfo example_region ∧
      history_closed example_history ∧
      branch_known example_history 1 ∧
      (∀ e ∈ example_metainfo, branch_known example_history e.2.1)) ∧
    compute_delta example_history example_metainfo 1 12 example_region
      = Except.ok [⟨{1, 2}, transfer_mode.incremental_since 5⟩,
                   ⟨{3}, transfer_mode.full_snapshot⟩,
                   ⟨{6}, transfer_mode.incremental_since 5⟩] ∧
    ((([⟨{1, 2}, transfer_mode.incremental_since 5⟩, ⟨{3}, transfer_mode.full_snapshot⟩,
        ⟨{6}, transfer_mode.incremental_since 5⟩] : List directive).map
        directive.sub_region).Pairwise (fun a b => Disjoint a b) ∧
     (([⟨{1, 2}, transfer_mode.incremental_since 5⟩, ⟨{3}, transfer_mode.full_snapshot⟩,
        ⟨{6}, transfer_mode.incremental_since 5⟩] : List directive).map
        directive.sub_region).foldr union_regions ∅ = example_region) ∧
    (∃ ds, compute_delta example_history example_metainfo 1 12 example_region
      = Except.ok ds) ∧
    compute_delta [⟨1, Finset.range 100, none, 0, 12⟩] [(Finset.range 100, 1, 5)] 1 12
        (Finset.range 100)
      = Except.ok [⟨Finset.range 100, transfer_mode.incremental_since 5⟩] :=
  have hd : metainfo_disjoint example_metainfo := by
    unfold metainfo_disjoint example_metainfo
    decide
  have hv : metainfo_covers example_metainfo example_region := by
    unfold metainfo_covers example_metainfo example_region
    decide
  have hc : history_closed example_history := by
    intro i br p t hbr ho
    cases i with
    | zero =>
      simp only [example_history, List.getElem?_cons_zero, Option.some.injEq] at hbr
      subst hbr
      simp at ho
    | succ i =>
      cases i with
      | zero => exact ⟨0, _, Nat.zero_lt_one, rfl, by
          simp only [example_history, List.getElem?_cons_succ, List.getElem?_cons_zero,
            Option.some.injEq] at hbr
          subst hbr
          simp only [Option.some.injEq, Prod.mk.injEq] at ho
          exact ho.1⟩
      | succ i => simp [example_history] at hbr
  have hk1 : branch_known example_history 1 := ⟨0, _, rfl, rfl⟩
  have hk2 : branch_known example_history 2 := ⟨1, _, rfl, rfl⟩
  have hm : ∀ e ∈ example_metainfo, branch_known example_history e.2.1 := by
    intro e he
    simp only [example_metainfo, List.mem_cons, List.mem_singleton, List.not_mem_nil,
      or_false] at he
    rcases he with rfl | rfl | rfl | rfl
    · exact hk1
    · exact hk2
    · exact hk1
    · exact hk1
  ⟨⟨hd, hv, hc, hk1, hm⟩,
   by rfl,
   (compute_delta_partitions example_history example_metainfo 1 12 example_region hd hv).1
     [⟨{1, 2}, transfer_mode.incremental_since 5⟩, ⟨{3}, transfer_mode.full_snapshot⟩,
      ⟨{6}, transfer_mode.incremental_since 5⟩] (by rfl),
   (compute_delta_partitions example_history example_metainfo 1 12 example_region hd hv).2
     hc hk1 hm,
   by rfl⟩

/-! ## A session changes only the region it backfills -/

theorem metainfo_at_subtract (m : Metainfo) (x : Region) (k : Key) (hk : k ∉ x) :
    metainfo_at ((m.map (fun e => (subtract e.1 x, e.2))).filter (fun e => !is_empty e.1)) k
      = metainfo_at m k := by
  induction m with
  | nil => rfl
  | cons e m ih =>
    unfold metainfo_at at ih ⊢
    by_cases hke : k ∈ e.1
    · have hin : k ∈ subtract e.1 x := by simp [subtract, hke, hk]
      have hne : is_empty (subtract e.1 x) = false := by
        simp only [is_empty, decide_eq_false_iff_not]
        exact Finset.ne_empty_of_mem hin
      simp [List.filter_cons, hne, List.find?_cons, hin, hke]
    · have hin : k ∉ subtract e.1 x := by simp [subtract, hke]
      by_cases hne : is_empty (subtract e.1 x) = true
      · simpa [List.filter_cons, hne, List.find?_cons, hke] using ih
      · simpa [List.filter_cons, hne, List.find?_cons, hin, hke] using ih

theorem apply_chunk_outside (c : Chunk) (st : Store) (k : Key) (hk : k ∉ c.sub_region) :
    (apply_chunk c st).data k = st.data k ∧
    metainfo_at (apply_chunk c st).metainfo k = metainfo_at st.metainfo k := by
  constructor
  · simp [apply_chunk, hk]
  · have := metainfo_at_subtract st.metainfo c.sub_region k hk
    unfold metainfo_at at this ⊢
    simpa [apply_chunk, List.find?_cons, hk] using this

theorem apply_chunk_inside (c : Chunk) (st : Store) (k : Key) (hk : k ∈ c.sub_region) :
    (apply_chunk c st).data k = c.data k ∧
    metainfo_at (apply_chunk c st).metainfo k = some (c.branch_id, c.timestamp) := by
  constructor
  · simp [apply_chunk, hk]
  · simp [apply_chunk, metainfo_at, List.find?_cons, hk]

/-- Keys that lie in none of the applied chunks keep their data and metainfo. -/
theorem stream_chunks_outside (chunks : List Chunk) (k : Key) (received : List Nat) :
    ∀ st : Store,
      (∀ i ∈ (stream_chunks chunks received st).2.1, ∀ c, chunks[i]? = some c →
          k ∉ c.sub_region) →
      (stream_chunks chunks received st).2.2.data k = st.data k ∧
      metainfo_at (stream_chunks chunks received st).2.2.metainfo k
        = metainfo_at st.metainfo k := by
  induction received with
  | nil => intro st _; exact ⟨rfl, rfl⟩
  | cons i rest ih =>
    intro st hout
    cases hc : chunks[i]? with
    | none => simp [stream_chunks, hc]
    | some c =>
      simp only [stream_chunks, hc] at hout ⊢
      have hk : k ∉ c.sub_region := hout i (List.mem_cons_self _ _) c hc
      have h2 := ih (apply_chunk c st) (fun j hj => hout j (List.mem_cons_of_mem _ hj))
      have h1 := apply_chunk_outside c st k hk
      exact ⟨h2.1.trans h1.1, h2.2.trans h1.2⟩

/-- With pairwise disjoint sub-regions, a key of an applied chunk ends with the
version of that chunk. -/
theorem stream_chunks_inside (chunks : List Chunk) (k : Key)
    (hdisj : (chunks.map Chunk.sub_region).Pairwise (fun a b => Disjoint a b))
    (received : List Nat) :
    ∀ (st : Store) (i : Nat) (c : Chunk),
      i ∈ (stream_chunks chunks received st).2.1 → chunks[i]? = some c → k ∈ c.sub_region →
      metainfo_at (stream_chunks chunks received st).2.2.metainfo k
        = some (c.branch_id, c.timestamp) := by
  have hother : ∀ (i j : Nat) (c d : Chunk), chunks[i]? = some c → chunks[j]? = some d →
      k ∈ c.sub_region → k ∈ d.sub_region → i = j := by
    intro i j c d hi hj hkc hkd
    by_contra hne
    have hi2 : (chunks.map Chunk.sub_region)[i]? = some c.sub_region := by simp [hi]
    have hj2 : (chunks.map Chunk.sub_region)[j]? = some d.sub_region := by simp [hj]
    have hlt : ∀ (a b : Nat) (x y : Region), a < b →
        (chunks.map Chunk.sub_region)[a]? = some x →
        (chunks.map Chunk.sub_region)[b]? = some y → Disjoint x y := by
      intro a b x y hab hx hy
      obtain ⟨ha, hxa⟩ := List.getElem?_eq_some.mp hx
      obtain ⟨hb, hyb⟩ := List.getElem?_eq_some.mp hy
      have := (List.pairwise_iff_getElem.mp hdisj) a b ha hb hab
      rw [hxa, hyb] at this
      exact this
    rcases Nat.lt_or_gt_of_ne hne with hlt1 | hlt1
    · exact Finset.disjoint_left.mp (hlt i j _ _ hlt1 hi2 hj2) hkc hkd
    · exact Finset.disjoint_left.mp (hlt j i _ _ hlt1 hj2 hi2) hkd hkc
  induction received with
  | nil => intro st i c hi; simp [stream_chunks] at hi
  | cons j rest ih =>
    intro st i c hi hc hk
    cases hcj : chunks[j]? with
    | none => simp [stream_chunks, hcj] at hi
    | some cj =>
      simp only [stream_chunks, hcj] at hi ⊢
      by_cases hin : i ∈ (stream_chunks chunks rest (apply_chunk cj st)).2.1
      · exact ih (apply_chunk cj st) i c hin hc hk
      · have hij : i = j := by
          rcases List.mem_cons.mp hi with h | h
          · exact h
          · exact absurd h hin
        subst hij
        rw [hc] at hcj
        cases hcj
        have hout := stream_chunks_outside chunks k rest (apply_chunk c st) (by
          intro i2 hi2 c2 hc2 hk2
          have := hother i2 i c2 c hc2 hc hk2 hk
          subst this
          exact hin hi2)
        rw [hout.2]
        exact (apply_chunk_inside c st k hk).2

theorem read_metainfo_disjoint (st : Store) (r : Region) (h : metainfo_disjoint st.metainfo) :
    metainfo_disjoint (read_metainfo st r) := by
  unfold metainfo_disjoint read_metainfo at *
  apply List.Pairwise.filter
  rw [List.pairwise_map]
  exact h.imp (fun hab => by
    simp only [intersect]
    exact Disjoint.mono Finset.inter_subset_left Finset.inter_subset_left hab)

theorem advertised_within_region (h : BranchHistory) (m : Metainfo) (rb : BranchId)
    (rt : Timestamp) (r : Region) (ds : List directive)
    (hok : compute_delta h m rb rt r = Except.ok ds) :
    ∀ d ∈ ds, d.sub_region ⊆ r := by
  intro d hd
  have hmem : d.sub_region ∈ ds.map directive.sub_region := List.mem_map_of_mem _ hd
  rw [compute_delta_sub_regions h rb rt r m ds hok] at hmem
  obtain ⟨hmem2, -⟩ := List.mem_filter.mp hmem
  obtain ⟨e, -, he⟩ := List.mem_map.mp hmem2
  rw [← he]
  exact Finset.inter_subset_right

theorem advertised_disjoint (h : BranchHistory) (m : Metainfo) (rb : BranchId)
    (rt : Timestamp) (r : Region) (ds : List directive) (hdisj : metainfo_disjoint m)
    (hok : compute_delta h m rb rt r = Except.ok ds) :
    (ds.map directive.sub_region).Pairwise (fun a b => Disjoint a b) := by
  rw [compute_delta_sub_regions h rb rt r m ds hok]
  apply List.Pairwise.filter
  rw [List.pairwise_map]
  exact hdisj.imp (fun hab => by
    simp only [intersect]
    exact Disjoint.mono Finset.inter_subset_left Finset.inter_subset_left hab)

/-- The store and the applied positions of a session are those of its stream. -/
theorem run_backfill_ok (store : Store) (region : Region) (peer : Backfiller) (sched : Schedule)
    (advertised : List directive)
    (hok : compute_delta peer.history (read_metainfo store region) peer.branch_id
      peer.timestamp region = Except.ok advertised) :
    (run_backfill store region peer sched).2
      = (stream_chunks (advertised.map (chunk_for peer)) sched.received store).2 := by
  unfold run_backfill
  rw [hok]
  simp only []
  rcases hs : stream_chunks (advertised.map (chunk_for peer)) sched.received store with
    ⟨e, applied, store1⟩
  cases e with
  | some e => rfl
  | none =>
    simp only []
    cases sched.ending with
    | some e => rfl
    | none =>
      simp only []
      split <;> rfl

theorem run_backfill_error (store : Store) (region : Region) (peer : Backfiller)
    (sched : Schedule) (e : BackfillError)
    (herr : compute_delta peer.history (read_metainfo store region) peer.branch_id
      peer.timestamp region = Except.error e) :
    run_backfill store region peer sched = (Except.error e, [], store) := by
  unfold run_backfill
  rw [herr]

/-- Claim C8. A session changes only the region it is asked to backfill:
whatever the schedule (completion or abort), every key outside `region` has
the same data and the same metainfo after `run_backfill` as before; and, the
store's metainfo being pairwise disjoint, every advertised sub-region that was
received lies in `region` and its keys carry the version its chunk brought. -/
theorem backfillee_changes_only_region (store : Store) (region : Region) (peer : Backfiller)
    (sched : Schedule) :
    (∀ k, k ∉ region →
      (run_backfill store region peer sched).2.2.data k = store.data k ∧
      metainfo_at (run_backfill store region peer sched).2.2.metainfo k
        = metainfo_at store.metainfo k) ∧
    (metainfo_disjoint store.metainfo →
      ∀ advertised,
        compute_delta peer.history (read_metainfo store region) peer.branch_id
          peer.timestamp region = Except.ok advertised →
        ∀ i ∈ (run_backfill store region peer sched).2.1, ∀ d, advertised[i]? = some d →
          d.sub_region ⊆ region ∧
          ∀ k ∈ d.sub_region,
            metainfo_at (run_backfill store region peer sched).2.2.metainfo k
              = some (peer.result_version d)) := by
  constructor
  · intro k hk
    cases hcd : compute_delta peer.history (read_metainfo store region) peer.branch_id
        peer.timestamp region with
    | error e => rw [run_backfill_error store region peer sched e hcd]; exact ⟨rfl, rfl⟩
    | ok advertised =>
      rw [run_backfill_ok store region peer sched advertised hcd]
      apply stream_chunks_outside
      intro i _ c hc hkc
      rw [List.getElem?_map] at hc
      cases hd : advertised[i]? with
      | none => simp [hd] at hc
      | some d =>
        simp only [hd, Option.map_some', Option.some.injEq] at hc
        subst hc
        have hsub := advertised_within_region _ _ _ _ _ _ hcd d (List.getElem?_mem hd)
        exact hk (hsub hkc)
  · intro hdisj advertised hcd i hi d hd
    have hsub := advertised_within_region _ _ _ _ _ _ hcd d (List.getElem?_mem hd)
    refine ⟨hsub, ?_⟩
    intro k hk
    rw [run_backfill_ok store region peer sched advertised hcd] at hi ⊢
    have hpair := advertised_disjoint _ _ _ _ _ _ (read_metainfo_disjoint store region hdisj) hcd
    have hmap : (advertised.map (chunk_for peer)).map Chunk.sub_region
        = advertised.map directive.sub_region := by
      simp [List.map_map, Function.comp_def, chunk_for]
    have hc : (advertised.map (chunk_for peer))[i]? = some (chunk_for peer d) := by
      simp [hd]
    have := stream_chunks_inside (advertised.map (chunk_for peer)) k (by rw [hmap]; exact hpair)
      sched.received store i (chunk_for peer d) hi hc hk
    rw [this]
    rfl

/-- A session on `example_store` for the region `{0,1,2,3}` that is interrupted
after the sub-region `{2,3}` was received: key 2 is at branch 1, timestamp 12,
key 0 is still at timestamp 5, and the keys outside the region are untouched. -/
theorem backfillee_changes_only_region_witness :
    (∀ k, k ∉ ({0, 1, 2, 3} : Region) →
      (run_backfill example_store {0, 1, 2, 3} example_backfiller example_schedule).2.2.data k
        = example_store.data k ∧
      metainfo_at
          (run_backfill example_store {0, 1, 2, 3} example_backfiller example_schedule).2.2.metainfo k
        = metainfo_at example_store.metainfo k) ∧
    (run_backfill example_store {0, 1, 2, 3} example_backfiller example_schedule).1
      = Except.error BackfillError.Interrupted ∧
    (run_backfill example_store {0, 1, 2, 3} example_backfiller example_schedule).2.1 = [1] ∧
    metainfo_at
        (run_backfill example_store {0, 1, 2, 3} example_backfiller example_schedule).2.2.metainfo 2
      = some (1, 12) ∧
    metainfo_at
        (run_backfill example_store {0, 1, 2, 3} example_backfiller example_schedule).2.2.metainfo 0
      = some (1, 5) :=
  ⟨(backfillee_changes_only_region example_store {0, 1, 2, 3} example_backfiller
      example_schedule).1,
   rfl, rfl,
   ((backfillee_changes_only_region example_store {0, 1, 2, 3} example_backfiller
      example_schedule).2
      (by simp [metainfo_disjoint, example_store])
      [⟨{0, 1}, transfer_mode.incremental_since 5⟩, ⟨{2, 3}, transfer_mode.incremental_since 5⟩]
      (by rfl) 1 (by decide) ⟨{2, 3}, transfer_mode.incremental_since 5⟩ (by rfl)).2 2
      (by decide),
   rfl⟩

end Backfill
